import Mathlib

/-!
# Juju: watcher diff engines, CAAS unit accessor and charm base selection

A shallow embedding of

* the diff engines of the watcher subsystem (`MapDiff`, `SetDiff`, `ScalarDiff`),
  whose implementation is exercised by `state/service_test.go` but is not among
  the sources, so it is modelled from the specification (section 4.2);
* `CAASUnitAccessor` of `apiserver/common/caas/caas.go`;
* `BaseSelector` of `core/charm/baseselector.go`.

Definitions come first, theorems afterwards.
-/

namespace State

/-! ## Data model of the map watcher (spec section 3) -/

/-- Kind of an item change: the `Kind` field of an `ItemChange`
(`state.ItemAdded`, `state.ItemModified`, `state.ItemDeleted` in the test). -/
inductive ItemKind where
  | Added
  | Modified
  | Deleted
  deriving DecidableEq, Repr

/-- Record `{Key, Kind, OldValue?, NewValue?}` of the specification. An absent
value (Go `nil`) is `none`. -/
structure ItemChange where
  Key : String
  Kind : ItemKind
  OldValue : Option String
  NewValue : Option String
  deriving DecidableEq, Repr

/-- A key-value mapping (a settings snapshot), as an association list. Only
`Mapping.get` observes it: the first binding of a key is the one in force. -/
abbrev Mapping := List (String × String)

/-- Value bound to `k`, if any (Go `v, ok := m[k]`). -/
def Mapping.get : Mapping → String → Option String
  | [], _ => none
  | (k', v) :: rest, k => if k' = k then some v else Mapping.get rest k

/-- Keys that occur in the mapping. -/
def Mapping.keys (m : Mapping) : List String := m.map Prod.fst

/-- Bind `k` to `v` (Go `m[k] = v`). -/
def Mapping.set (m : Mapping) (k v : String) : Mapping := (k, v) :: m

/-- Remove every binding of `k` (Go `delete(m, k)`). -/
def Mapping.delete (m : Mapping) (k : String) : Mapping :=
  m.filter (fun p => decide (p.1 ≠ k))

/-- Modelled from the spec: the per-key case analysis of `MapDiff` (section 4.2),
whose implementation is not among the sources. A key in `new` not in `old` is
`Added`; present in both with different values, `Modified`; present in `old`
not in `new`, `Deleted`; otherwise there is no change. -/
def itemChange (old new : Mapping) (k : String) : Option ItemChange :=
  match old.get k, new.get k with
  | none, some v => some ⟨k, ItemKind.Added, none, some v⟩
  | some a, some b => if a = b then none else some ⟨k, ItemKind.Modified, some a, some b⟩
  | some a, none => some ⟨k, ItemKind.Deleted, some a, none⟩
  | none, none => none

/-- Keys of either mapping, each once, in ascending order. -/
def sortedKeys (old new : Mapping) : List String :=
  List.insertionSort (· ≤ ·) (old.keys ++ new.keys).dedup

/-- Modelled from the spec: `MapDiff(old, new)` of section 4.2, whose
implementation is not among the sources (only `TestWatchConfig` is). The keys of
both snapshots are visited in ascending order and each contributes the change
`itemChange` finds for it. -/
def MapDiff (old new : Mapping) : List ItemChange :=
  (sortedKeys old new).filterMap (itemChange old new)

/-- Apply one change to a mapping: an added or modified key is bound to the new
value, a deleted key is removed. -/
def applyChange (m : Mapping) (c : ItemChange) : Mapping :=
  match c.Kind with
  | ItemKind.Deleted => m.delete c.Key
  | _ =>
    match c.NewValue with
    | some v => m.set c.Key v
    | none => m

/-- Apply a list of changes, first to last. -/
def applyChanges (cs : List ItemChange) (m : Mapping) : Mapping :=
  cs.foldl applyChange m

/-- Effect of one change on the value bound to its own key. -/
def applyAt (c : ItemChange) (cur : Option String) : Option String :=
  match c.Kind with
  | ItemKind.Deleted => none
  | _ =>
    match c.NewValue with
    | some v => some v
    | none => cur

/-! ## Set and flag diff engines (spec section 4.2) -/

/-- Delta of a set entity: `{Added, Removed}` (spec section 3). -/
structure SetDelta where
  Added : Finset String
  Removed : Finset String
  deriving DecidableEq

/-- Modelled from the spec: `SetDiff(old, new)` of section 4.2, whose
implementation is not among the sources: `Added = new − old` and
`Removed = old − new`, the standard set differences. -/
def SetDiff (old new : Finset String) : SetDelta :=
  { Added := new \ old, Removed := old \ new }

/-- A delta is empty when `Added` and `Removed` are both empty. -/
def SetDelta.isEmpty (d : SetDelta) : Bool :=
  decide (d.Added = ∅) && decide (d.Removed = ∅)

/-- Modelled from the spec: section 4.2 states that an empty delta means no
notification, and section 4.1 that a non-empty result is placed in the slot. -/
def SetDelta.notifies (d : SetDelta) : Bool := !d.isEmpty

/-- Modelled from the spec: `ScalarDiff(old, new)` of section 4.2, whose
implementation is not among the sources: a delta is present exactly when
`old ≠ new`, and its payload is the new value alone. `none` is no notification. -/
def ScalarDiff (old new : Bool) : Option Bool :=
  if old = new then none else some new

/-- Modelled from the spec: the truth value of the stored `exposed` flag, read as
in `TestWatchExposed` and `TestWatchExposedContent`: the flag is set when its node
is stored (`SetExposed`), cleared when it is not (`ClearExposed`), and the content
of the node plays no part. `none` is an absent node. -/
def IsExposed (node : Option String) : Bool := node.isSome

end State

/-! ## Errors -/

namespace Errors

/-- Go `error` values built by the embedded code (`github.com/juju/errors`). A
message is kept as its format string and the arguments passed to it. -/
inductive Err where
  /-- `errors.Errorf(format, args...)` -/
  | Errorf (format : String) (args : List String)
  /-- `errors.NotValidf(format, args...)` -/
  | NotValidf (format : String) (args : List String)
  /-- `errors.Forbiddenf(format, args...)` -/
  | Forbiddenf (format : String) (args : List String)
  /-- `errors.BadRequestf(format, args...)` -/
  | BadRequestf (format : String) (args : List String)
  /-- `errors.NotSupportedf(format, args...)` -/
  | NotSupportedf (format : String) (args : List String)
  /-- `errors.NewNotSupported(nil, msg)` -/
  | NewNotSupported (msg : String)
  /-- `errors.Trace(err)` for a non-nil `err` -/
  | Trace (cause : Err)
  /-- An error made by code outside the embedded files, known by a name. -/
  | External (name : String)
  deriving DecidableEq, Repr

end Errors

/-! ## `apiserver/common/caas/caas.go` -/

namespace Caas

open Errors

/-- A `names.Tag`. The two tag types the type switch of `CAASUnitAccessor` tells
apart have their own constructor; `Other` is a tag of any other Go type, with the
name of that type and the results of its `Kind()` and `Id()` methods. -/
inductive Tag where
  | ApplicationTag (Name : String)
  | UnitTag (name : String)
  | Other (goType : String) (kind : String) (id : String)
  deriving DecidableEq, Repr

/-- Constant `names.UnitTagKind`. -/
def UnitTagKind : String := "unit"

/-- Constant `names.ApplicationTagKind`. -/
def ApplicationTagKind : String := "application"

/-- Method `Kind()` of a tag. -/
def Tag.Kind : Tag → String
  | Tag.ApplicationTag _ => ApplicationTagKind
  | Tag.UnitTag _ => UnitTagKind
  | Tag.Other _ kind _ => kind

/-- Method `Id()` of a tag: the application name, the unit name, or the id. -/
def Tag.Id : Tag → String
  | Tag.ApplicationTag Name => Name
  | Tag.UnitTag name => name
  | Tag.Other _ _ id => id

/-- What `%T` prints for the value of the type switch; `none` is a nil tag. -/
def typeName : Option Tag → String
  | none => "<nil>"
  | some (Tag.ApplicationTag _) => "names.ApplicationTag"
  | some (Tag.UnitTag _) => "names.UnitTag"
  | some (Tag.Other goType _ _) => goType

/-- The part of `facade.Authorizer` that `CAASUnitAccessor` calls: the result of
`GetAuthTag()` (`none` for a nil tag) and the predicate `AuthOwner`. -/
structure Authorizer where
  GetAuthTag : Option Tag
  AuthOwner : Tag → Bool

/-- Interface `ApplicationGetter`: `ApplicationExists` returns an error, or nil
(`none`) when the application exists. -/
structure ApplicationGetter where
  ApplicationExists : String → Option Err

/-- Type `common.AuthFunc`. -/
abbrev AuthFunc := Tag → Bool

/-- `CAASUnitAccessor(authorizer, st)()`: the result of calling the returned
`common.GetAuthFunc`. `Except.error` is the return `nil, err`. The function
`names.UnitApplication` belongs to another module and is the parameter
`UnitApplication`, with `none` for its error result. -/
def CAASUnitAccessor (UnitApplication : String → Option String)
    (authorizer : Authorizer) (st : ApplicationGetter) : Except Err AuthFunc :=
  match authorizer.GetAuthTag with
  | some (Tag.ApplicationTag appName) =>
    match st.ApplicationExists appName with
    | some err => Except.error (Err.Trace err)
    | none =>
      Except.ok (fun tag =>
        if tag.Kind ≠ UnitTagKind then false
        else
          match UnitApplication tag.Id with
          | none => false
          | some unitApp => decide (unitApp = appName))
  | some (Tag.UnitTag _) => Except.ok (fun tag => authorizer.AuthOwner tag)
  | tag =>
    Except.error
      (Err.Errorf "expected names.UnitTag or names.ApplicationTag, got %T" [typeName tag])

/-- A unit name of the shape `application/number`, read on its characters: the
application is what precedes the first `/`, and digits must follow it. It stands
for `names.UnitApplication` in the concrete evaluations. -/
def unitApplication (unitName : String) : Option String :=
  let app := unitName.data.takeWhile (fun c => decide (c ≠ '/'))
  match unitName.data.dropWhile (fun c => decide (c ≠ '/')) with
  | _ :: d :: ds =>
    if app ≠ [] ∧ (d :: ds).all Char.isDigit then some (String.mk app) else none
  | _ => none

/-- An authorizer whose authenticated entity is the application `wordpress`. -/
def wordpressAuthorizer : Authorizer :=
  { GetAuthTag := some (Tag.ApplicationTag "wordpress"), AuthOwner := fun _ => false }

/-- An authorizer whose authenticated entity is the unit `wordpress/0`; it owns
its own tag. -/
def unitAuthorizer : Authorizer :=
  { GetAuthTag := some (Tag.UnitTag "wordpress/0"),
    AuthOwner := fun tag => decide (tag = Tag.UnitTag "wordpress/0") }

/-- A backend in which every application exists. -/
def everyApplication : ApplicationGetter := { ApplicationExists := fun _ => none }

/-- A backend in which no application exists. -/
def noApplication : ApplicationGetter :=
  { ApplicationExists := fun _ => some (Err.External "application not found") }

end Caas

/-! ## `core/charm/baseselector.go` -/

namespace Charm

open Errors

/-- Type `series.Channel`. -/
structure Channel where
  Track : String
  Risk : String
  deriving DecidableEq, Repr

/-- Type `series.Base`. -/
structure Base where
  OS : String
  Channel : Channel
  deriving DecidableEq, Repr

/-- The zero value `series.Base{}`. -/
def Base.zero : Base := { OS := "", Channel := { Track := "", Risk := "" } }

/-- Interface `SelectorLogger`; a logger is known by a name. A nil logger is
`none` where a logger is expected. -/
structure SelectorLogger where
  name : String
  deriving DecidableEq, Repr

/-- Functions and values of `core/series`, `core/charm` and `version` that
`baseselector.go` calls and that are not among the sources. They are parameters
of the embedding. An `error` result is `none` when nil. -/
structure Deps where
  /-- `series.Base.Empty()` -/
  Empty : Base → Bool
  /-- `series.Base.String()` -/
  BaseString : Base → String
  /-- `series.Base.DisplayString()` -/
  DisplayString : Base → String
  /-- `jujuBase.IsCompatible(charmBase)` -/
  IsCompatible : Base → Base → Bool
  /-- `BaseForCharm(requestedBase, supportedBases)` -/
  BaseForCharm : Base → List Base → Base × Option Err
  /-- `IsUnsupportedBaseError(err)` -/
  IsUnsupportedBaseError : Option Err → Bool
  /-- `IsMissingBaseError(err)` -/
  IsMissingBaseError : Option Err → Bool
  /-- `series.LatestLTSBase()` -/
  LatestLTSBase : Base
  /-- `version.DefaultSupportedLTSBase()` -/
  DefaultSupportedLTSBase : Base
  /-- `series.WorkloadBases(now, requestedBase, imageStream)` at the time of the call -/
  WorkloadBases : Base → String → Except Err (List Base)
  /-- `series.ParseBaseFromString(s)` -/
  ParseBaseFromString : String → Except Err Base

/-- Type `BaseSelector`. -/
structure BaseSelector where
  requestedBase : Base
  defaultBase : Base
  explicitDefaultBase : Bool
  force : Bool
  logger : Option SelectorLogger
  supportedBases : List Base
  jujuSupportedBases : Finset String
  usingImageID : Bool
  deriving DecidableEq

deriving instance DecidableEq for Except

/-- The zero value `BaseSelector{}`. -/
def BaseSelector.zero : BaseSelector :=
  { requestedBase := Base.zero, defaultBase := Base.zero, explicitDefaultBase := false,
    force := false, logger := none, supportedBases := [], jujuSupportedBases := ∅,
    usingImageID := false }

/-- Interface `SelectorModelConfig`: the results of `DefaultBase()` and
`ImageStream()`. -/
structure SelectorModelConfig where
  DefaultBase : String × Bool
  ImageStream : String

/-- Type `SelectorConfig`. -/
structure SelectorConfig where
  Config : SelectorModelConfig
  Force : Bool
  Logger : Option SelectorLogger
  RequestedBase : Base
  SupportedCharmBases : List Base
  UsingImageID : Bool

/-- A line given to the logger: the format and the string of the base passed
with it. -/
structure LogLine where
  format : String
  arg : String
  deriving DecidableEq, Repr

/-- Outcome of a call that returns `(series.Base, error)`: the pair it returns
with the lines it logged, or a panic (a method called on a nil logger). -/
inductive Outcome where
  | returns (base : Base) (err : Option Err) (log : List LogLine)
  | panics
  deriving DecidableEq, Repr

/-- `s.logger.Infof(format, base)` followed by `k`: calling the method on a nil
interface panics; on a logger the line is written and the function goes on. -/
def Infof (logger : Option SelectorLogger) (format arg : String) (k : Outcome) : Outcome :=
  match logger with
  | none => Outcome.panics
  | some _ =>
    match k with
    | Outcome.returns base err log => Outcome.returns base err (⟨format, arg⟩ :: log)
    | Outcome.panics => Outcome.panics

/-- Constant `msgUserRequestedBase`. -/
def msgUserRequestedBase : String := "with the user specified base %q"

/-- Constant `msgLatestLTSBase`. -/
def msgLatestLTSBase : String := "with the latest LTS base %q"

/-- Function `printBases`. -/
def printBases (d : Deps) (bases : List Base) : String :=
  ", ".intercalate (bases.map d.DisplayString)

/-- What `validate` leaves behind: its two results, the set
`s.jujuSupportedBases`, which the method shares with its caller and adds to, and
the lines it logged. -/
structure Validated where
  supportedBases : List Base
  err : Option Err
  jujuSupportedBases : Finset String
  log : List LogLine

/-- The variables the loops of `validate` update: `supportedBases`, the set
`s.jujuSupportedBases` and the lines logged so far. -/
structure LoopState where
  supportedBases : List Base
  jujuSupportedBases : Finset String
  log : List LogLine

/-- The inner loop of `validate` for one `charmBase`. It runs after the nil check
of the logger, so `Infof` writes its line. -/
def validateInner (d : Deps) (charmBase : Base) (acc : LoopState)
    (supportedJujuBases : List Base) : LoopState :=
  supportedJujuBases.foldl
    (fun a jujuCharmBase =>
      let added := insert (d.BaseString jujuCharmBase) a.jujuSupportedBases
      if d.IsCompatible jujuCharmBase charmBase then
        { supportedBases := a.supportedBases ++ [charmBase]
          jujuSupportedBases := added
          log := a.log ++ [⟨msgUserRequestedBase, d.BaseString charmBase⟩] }
      else { a with jujuSupportedBases := added })
    acc

/-- Method `BaseSelector.validate`. -/
def validate (d : Deps) (s : BaseSelector)
    (supportedCharmBases supportedJujuBases : List Base) : Validated :=
  if s.logger = none then
    ⟨[], some (Err.NotValidf "empty Logger" []), s.jujuSupportedBases, []⟩
  else if s.usingImageID && d.Empty s.requestedBase && !s.explicitDefaultBase then
    ⟨[], some (Err.Forbiddenf
      "base must be explicitly provided when image-id constraint is used" []),
      s.jujuSupportedBases, []⟩
  else if supportedCharmBases.length = 0 then
    ⟨[], some (Err.NotValidf "charm does not define any bases," []),
      s.jujuSupportedBases, []⟩
  else if supportedJujuBases.length = 0 then
    ⟨[], some (Err.BadRequestf "programming error: no juju supported bases" []),
      s.jujuSupportedBases, []⟩
  else
    let r := supportedCharmBases.foldl
      (fun acc charmBase => validateInner d charmBase acc supportedJujuBases)
      { supportedBases := [], jujuSupportedBases := s.jujuSupportedBases, log := [] }
    if r.supportedBases.length = 0 then
      ⟨[], some (Err.NotSupportedf "the charm defined bases %q"
        [printBases d supportedCharmBases]), r.jujuSupportedBases, r.log⟩
    else ⟨r.supportedBases, none, r.jujuSupportedBases, r.log⟩

/-- Function `ConfigureBaseSelector`. `Except.error` is the return
`BaseSelector{}, err`. The interface `cfg.Config` is not nil, and the lines
`validate` logs are not part of the result. -/
def ConfigureBaseSelector (d : Deps) (cfg : SelectorConfig) : Except Err BaseSelector :=
  match d.WorkloadBases cfg.RequestedBase cfg.Config.ImageStream with
  | Except.error err => Except.error (Err.Trace err)
  | Except.ok workloadBases =>
    let parsed : Except Err Base :=
      if cfg.Config.DefaultBase.2 then d.ParseBaseFromString cfg.Config.DefaultBase.1
      else Except.ok Base.zero
    match parsed with
    | Except.error err => Except.error (Err.Trace err)
    | Except.ok parsedDefaultBase =>
      let bs : BaseSelector :=
        { requestedBase := cfg.RequestedBase
          defaultBase := parsedDefaultBase
          explicitDefaultBase := cfg.Config.DefaultBase.2
          force := cfg.Force
          logger := cfg.Logger
          supportedBases := []
          jujuSupportedBases := ∅
          usingImageID := cfg.UsingImageID }
      let v := validate d bs cfg.SupportedCharmBases workloadBases
      match v.err with
      | some err => Except.error (Err.Trace err)
      | none =>
        Except.ok { bs with supportedBases := v.supportedBases,
                            jujuSupportedBases := v.jujuSupportedBases }

/-- Method `BaseSelector.userRequested`. -/
def userRequested (d : Deps) (s : BaseSelector) (requestedBase : Base) : Outcome :=
  let r := d.BaseForCharm requestedBase s.supportedBases
  if s.force && d.IsUnsupportedBaseError r.2 &&
      decide (d.BaseString requestedBase ∈ s.jujuSupportedBases) then
    Infof s.logger msgUserRequestedBase (d.BaseString requestedBase)
      (Outcome.returns requestedBase none [])
  else
    match r.2 with
    | some err =>
      if d.BaseString requestedBase ∉ s.jujuSupportedBases then
        Outcome.returns Base.zero
          (some (Err.NewNotSupported ("base: " ++ d.BaseString requestedBase))) []
      else if d.IsUnsupportedBaseError (some err) then
        Outcome.returns Base.zero
          (some (Err.Errorf "base %q is not supported, base series are: %s"
            [d.BaseString requestedBase, printBases d s.supportedBases])) []
      else Outcome.returns Base.zero (some err) []
    | none =>
      Infof s.logger msgUserRequestedBase (d.BaseString r.1) (Outcome.returns r.1 none [])

/-- Method `BaseSelector.CharmBase`. -/
def CharmBase (d : Deps) (s : BaseSelector) : Outcome :=
  if !d.Empty s.requestedBase then userRequested d s s.requestedBase
  else if s.explicitDefaultBase then userRequested d s s.defaultBase
  else
    match d.BaseForCharm d.LatestLTSBase s.supportedBases with
    | (preferredBase, none) =>
      Infof s.logger msgLatestLTSBase (d.BaseString d.LatestLTSBase)
        (Outcome.returns preferredBase none [])
    | (_, some err) =>
      if d.IsMissingBaseError (some err) then Outcome.returns Base.zero (some err) []
      else
        match d.BaseForCharm d.DefaultSupportedLTSBase s.supportedBases with
        | (jujuDefaultBase, none) =>
          Infof s.logger msgLatestLTSBase (d.BaseString d.DefaultSupportedLTSBase)
            (Outcome.returns jujuDefaultBase none [])
        | (_, some _) =>
          Outcome.returns (d.BaseForCharm Base.zero s.supportedBases).1
            (d.BaseForCharm Base.zero s.supportedBases).2 []

/-! ### A value for the parameters, for the concrete evaluations -/

/-- Base `ubuntu@22.04`. -/
def jammy : Base := { OS := "ubuntu", Channel := { Track := "22.04", Risk := "" } }

/-- Base `ubuntu@24.04`. -/
def noble : Base := { OS := "ubuntu", Channel := { Track := "24.04", Risk := "" } }

/-- Base `debian@12`, which the controller of the concrete evaluations does not
support. -/
def bookworm : Base := { OS := "debian", Channel := { Track := "12", Risk := "" } }

/-- String of a channel: the track, followed by `/risk` when there is a risk. -/
def channelString (c : Channel) : String :=
  if c.Risk = "" then c.Track else c.Track ++ "/" ++ c.Risk

/-- String of a base: `os@channel`, empty for a base without OS. -/
def baseString (b : Base) : String :=
  if b.OS = "" then "" else b.OS ++ "@" ++ channelString b.Channel

/-- Two bases are compatible when they agree on OS and track. -/
def isCompatible (a b : Base) : Bool :=
  decide (a.OS = b.OS) && decide (a.Channel.Track = b.Channel.Track)

/-- The error `BaseForCharm` gives for a base the charm does not support. -/
def unsupportedBaseError : Err := Err.External "unsupportedBaseError"

/-- The error `BaseForCharm` gives when no base is requested and none is listed. -/
def errMissingBase : Err := Err.External "errMissingBase"

/-- Base relevant to a charm: without supported bases the requested one (an
error if it is empty), for an empty request the first supported base, otherwise
the requested base if a supported base is compatible with it. -/
def baseForCharm (requestedBase : Base) (supportedBases : List Base) : Base × Option Err :=
  match supportedBases with
  | [] =>
    if requestedBase = Base.zero then (Base.zero, some errMissingBase)
    else (requestedBase, none)
  | first :: _ =>
    if requestedBase = Base.zero then (first, none)
    else if supportedBases.any (fun b => isCompatible b requestedBase) then
      (requestedBase, none)
    else (Base.zero, some unsupportedBaseError)

/-- A value for the parameters `Deps`. It is used for the concrete evaluations
only; the general theorems hold for every value of the parameters. The bases
juju supports here are `ubuntu@22.04` and `ubuntu@24.04`, and the only default
base that parses is `ubuntu@22.04`. -/
def sampleDeps : Deps :=
  { Empty := fun b => decide (b = Base.zero)
    BaseString := baseString
    DisplayString := baseString
    IsCompatible := isCompatible
    BaseForCharm := baseForCharm
    IsUnsupportedBaseError := fun e => decide (e = some unsupportedBaseError)
    IsMissingBaseError := fun e => decide (e = some errMissingBase)
    LatestLTSBase := noble
    DefaultSupportedLTSBase := jammy
    WorkloadBases := fun _ _ => Except.ok [jammy, noble]
    ParseBaseFromString := fun str =>
      if str = "ubuntu@22.04" then Except.ok jammy
      else Except.error (Err.NotValidf "base string %q" [str]) }

/-- A logger. -/
def sampleLogger : SelectorLogger := { name := "juju.core.charm" }

/-- A selector for a charm that supports `ubuntu@22.04`, on a controller that
supports `ubuntu@22.04` and `ubuntu@24.04`, deployed with `--force`. -/
def forcedSelector : BaseSelector :=
  { requestedBase := bookworm
    defaultBase := Base.zero
    explicitDefaultBase := false
    force := true
    logger := some sampleLogger
    supportedBases := [jammy]
    jujuSupportedBases := {"ubuntu@24.04", "ubuntu@22.04"}
    usingImageID := false }

/-- A selector with no requested base and the model default `ubuntu@22.04`. -/
def defaultSelector : BaseSelector :=
  { requestedBase := Base.zero
    defaultBase := jammy
    explicitDefaultBase := true
    force := false
    logger := some sampleLogger
    supportedBases := [jammy]
    jujuSupportedBases := {"ubuntu@24.04", "ubuntu@22.04"}
    usingImageID := false }

/-- The configuration of a deployment of that charm with `--force` and
`--base debian@12`. -/
def forcedConfig : SelectorConfig :=
  { Config := { DefaultBase := ("", false), ImageStream := "released" }
    Force := true
    Logger := some sampleLogger
    RequestedBase := bookworm
    SupportedCharmBases := [jammy]
    UsingImageID := false }

/-- A configuration that uses the image-id constraint and names no base; the
model has no explicit default base. -/
def imageIDConfig : SelectorConfig :=
  { Config := { DefaultBase := ("", false), ImageStream := "released" }
    Force := false
    Logger := some sampleLogger
    RequestedBase := Base.zero
    SupportedCharmBases := [jammy]
    UsingImageID := true }

/-- The selector `ConfigureBaseSelector` builds from `imageIDConfig` before it
validates it. -/
def imageIDSelector : BaseSelector :=
  { BaseSelector.zero with logger := some sampleLogger, usingImageID := true }

end Charm

/-! ## Watcher core: coalescing and termination (spec sections 4.1 and 7) -/

namespace State

open Errors

/-- Change with key `k` in a list of changes, if any. -/
def findChange (cs : List ItemChange) (k : String) : Option ItemChange :=
  cs.find? (fun c => decide (c.Key = k))

/-- Modelled from the spec: the merge of section 4.1 for one key, whose
implementation is not among the sources. `pending` is the undelivered change of
the key and `new` the change of the next observation; the result is their net
effect. A key added then deleted cancels out; a key modified twice keeps only
the latest value, with the old value of the first change; a key added then
modified stays added, with the latest value; a key modified then deleted is
deleted; a key deleted then added again is modified. A key that ends with the
value it had before the pending change has no net change. -/
def mergeItem (k : String) (pending new : Option ItemChange) : Option ItemChange :=
  match pending, new with
  | none, n => n
  | some p, none => some p
  | some p, some n =>
    match p.Kind, n.Kind with
    | ItemKind.Added, ItemKind.Deleted => none
    | ItemKind.Added, _ => some ⟨k, ItemKind.Added, none, n.NewValue⟩
    | _, ItemKind.Deleted => some ⟨k, ItemKind.Deleted, p.OldValue, none⟩
    | _, _ =>
      if p.OldValue = n.NewValue then none
      else some ⟨k, ItemKind.Modified, p.OldValue, n.NewValue⟩

/-- Keys of either list of changes, each once, in ascending order. -/
def sortedChangeKeys (pending new : List ItemChange) : List String :=
  List.insertionSort (· ≤ ·)
    (pending.map (fun c => c.Key) ++ new.map (fun c => c.Key)).dedup

/-- Modelled from the spec: the merge of a new map delta into the pending one
(section 4.1), whose implementation is not among the sources. Every key of either
delta contributes its net change, in ascending order of key. -/
def MergeChanges (pending new : List ItemChange) : List ItemChange :=
  (sortedChangeKeys pending new).filterMap
    (fun k => mergeItem k (findChange pending k) (findChange new k))

/-- Modelled from the spec: the merge of a new set delta into the pending one
(section 4.1), whose implementation is not among the sources. A member added then
removed cancels out, and so does a member removed then added again. -/
def SetDelta.merge (pending new : SetDelta) : SetDelta :=
  { Added := (pending.Added \ new.Removed) ∪ (new.Added \ pending.Removed)
    Removed := (pending.Removed \ new.Added) ∪ (new.Removed \ pending.Added) }

/-- Apply a set delta to a set: `(S − Removed) ∪ Added`. -/
def applySetDelta (S : Finset String) (d : SetDelta) : Finset String :=
  (S \ d.Removed) ∪ d.Added

/-- Modelled from the spec: a DiffEngine variant (section 4.2) with the merge the
WatcherCore applies to its deltas (section 4.1), for snapshots `σ` and deltas
`δ`. -/
structure DiffEngine (σ δ : Type) where
  diff : σ → σ → δ
  isEmpty : δ → Bool
  merge : δ → δ → δ

/-- The engine of a MapWatcher. -/
def mapEngine : DiffEngine Mapping (List ItemChange) :=
  { diff := MapDiff, isEmpty := List.isEmpty, merge := MergeChanges }

/-- The engine of a SetWatcher. -/
def setEngine : DiffEngine (Finset String) SetDelta :=
  { diff := SetDiff, isEmpty := SetDelta.isEmpty, merge := SetDelta.merge }

/-- Modelled from the spec: what `Get(entityKey)` of the ChangeSource gives at
one observation (sections 6 and 7): a snapshot, a TransientFetchError, or a stored
value that does not decode (DecodeError). -/
inductive Fetched (σ : Type) where
  | snapshot (s : σ)
  | transient
  | undecodable (e : Err)

/-- Modelled from the spec: the state of a watcher (section 3), whose
implementation is not among the sources: the snapshot of the last observation,
the single pending slot, whether the notification channel is closed, whether the
task has exited, and the terminal error (nil, `none`, until a failure). The
deltas merged into the slot are those between successive observations, so the
slot holds the net delta since the snapshot that was last delivered. -/
structure Watcher (σ δ : Type) where
  last : σ
  slot : Option δ
  closed : Bool
  stopped : Bool
  err : Option Err

/-- A watcher that has just been created on the snapshot `initial`; `seed` is the
initial delta waiting in the slot, if there is one. -/
def Watcher.start {σ δ : Type} (initial : σ) (seed : Option δ) : Watcher σ δ :=
  { last := initial, slot := seed, closed := false, stopped := false, err := none }

/-- The slot that holds the delta `d`: nothing for an empty delta (an empty delta
is no notification, section 4.2). -/
def pendingOf {σ δ : Type} (E : DiffEngine σ δ) (d : δ) : Option δ :=
  if E.isEmpty d then none else some d

/-- Modelled from the spec: the hand-off of section 4.1. An empty delta leaves the
slot as it is; a delta goes into an empty slot; it is merged into a pending
delta, and the slot is left empty when the net delta is empty. -/
def coalesce {σ δ : Type} (E : DiffEngine σ δ) (slot : Option δ) (d : δ) : Option δ :=
  if E.isEmpty d then slot
  else
    match slot with
    | none => some d
    | some p => pendingOf E (E.merge p d)

/-- Modelled from the spec: one turn of the observation loop (sections 4.1 and
7). A stopped watcher observes nothing. A snapshot is diffed against the last
observed one and the delta coalesced into the slot; a transient fetch error
changes nothing; an undecodable value stops the watcher with the decode error as
terminal error, closes the channel and discards what is pending. -/
def Watcher.observe {σ δ : Type} (E : DiffEngine σ δ) (w : Watcher σ δ)
    (f : Fetched σ) : Watcher σ δ :=
  if w.stopped then w
  else
    match f with
    | Fetched.snapshot s =>
      { w with last := s, slot := coalesce E w.slot (E.diff w.last s) }
    | Fetched.transient => w
    | Fetched.undecodable e =>
      { w with slot := none, closed := true, stopped := true, err := some e }

/-- Result of a receive on `Changes()`: a delta (`ok = true`), nothing to
receive yet, or a closed channel (`ok = false`). -/
inductive Received (δ : Type) where
  | value (d : δ)
  | nothing
  | closed
  deriving DecidableEq, Repr

/-- Modelled from the spec: a receive on `Changes()` (section 4.1). On a closed
channel it yields `closed`; otherwise it takes the pending delta and clears the
slot. -/
def Watcher.receive {σ δ : Type} (w : Watcher σ δ) : Received δ × Watcher σ δ :=
  if w.closed then (Received.closed, w)
  else
    match w.slot with
    | some d => (Received.value d, { w with slot := none })
    | none => (Received.nothing, w)

/-- Modelled from the spec: `Stop()` (section 4.1). The task exits, the channel is
closed, and the terminal error is returned: nil (`none`) unless the task had
failed. -/
def Watcher.Stop {σ δ : Type} (w : Watcher σ δ) : Option Err × Watcher σ δ :=
  (w.err, { w with closed := true, stopped := true })

/-- What happens to a watcher: an observation, a receive by the consumer, or a
call of `Stop()`. -/
inductive Event (σ : Type) where
  | observe (f : Fetched σ)
  | receive
  | stop

/-- What an event gives back to the consumer or owner. -/
inductive Output (δ : Type) where
  | received (r : Received δ)
  | stopped (err : Option Err)
  deriving DecidableEq, Repr

/-- The watcher after one event, and what the event gave back. -/
def Watcher.step {σ δ : Type} (E : DiffEngine σ δ) (w : Watcher σ δ) :
    Event σ → Watcher σ δ × Option (Output δ)
  | Event.observe f => (w.observe E f, none)
  | Event.receive => ((w.receive).2, some (Output.received (w.receive).1))
  | Event.stop => ((w.Stop).2, some (Output.stopped (w.Stop).1))

/-- The watcher after a sequence of events, and what the events gave back, in
order. -/
def Watcher.run {σ δ : Type} (E : DiffEngine σ δ) :
    Watcher σ δ → List (Event σ) → Watcher σ δ × List (Output δ)
  | w, [] => (w, [])
  | w, ev :: rest =>
    let r := Watcher.run E (w.step E ev).1 rest
    (r.1, ((w.step E ev).2).toList ++ r.2)

/-- An event that ends the watcher's task: a call of `Stop()` or the observation
of an undecodable value. -/
def Event.ends {σ : Type} : Event σ → Bool
  | Event.observe (Fetched.undecodable _) => true
  | Event.stop => true
  | _ => false

/-- An observation of an undecodable value. -/
def Event.fails {σ : Type} : Event σ → Bool
  | Event.observe (Fetched.undecodable _) => true
  | _ => false

/-- The deltas between successive snapshots, from `prev` on. -/
def successiveDeltas {σ δ : Type} (E : DiffEngine σ δ) : σ → List σ → List δ
  | _, [] => []
  | prev, s :: rest => E.diff prev s :: successiveDeltas E s rest

/-- The watcher after it has observed the snapshots `ss` in a row. -/
def Watcher.observeAll {σ δ : Type} (E : DiffEngine σ δ) (w : Watcher σ δ)
    (ss : List σ) : Watcher σ δ :=
  ss.foldl (fun w s => w.observe E (Fetched.snapshot s)) w

/-- A watcher whose task runs: not stopped, channel open, no terminal error. -/
def Watcher.running {σ δ : Type} (w : Watcher σ δ) : Prop :=
  w.stopped = false ∧ w.closed = false ∧ w.err = none

/-- A watcher that failed with the terminal error `e`: stopped, channel closed,
nothing pending. -/
def Watcher.failedWith {σ δ : Type} (w : Watcher σ δ) (e : Err) : Prop :=
  w.stopped = true ∧ w.closed = true ∧ w.err = some e ∧ w.slot = none

/-- The snapshot observed last: the last of `ss`, or `prev` when nothing was
observed. -/
def lastSnapshot {σ : Type} : σ → List σ → σ
  | prev, [] => prev
  | _, s :: rest => lastSnapshot s rest

/-- Replay map deltas one by one onto a mapping. -/
def replayChanges (m : Mapping) (ds : List (List ItemChange)) : Mapping :=
  ds.foldl (fun m d => applyChanges d m) m

/-- Replay set deltas one by one onto a set. -/
def replaySetDeltas (S : Finset String) (ds : List SetDelta) : Finset String :=
  ds.foldl applySetDelta S

/-- The laws of a diff engine that coalescing rests on: a snapshot does not
differ from itself, merging the deltas of two successive steps gives the delta
across both, and a step with an empty delta changes no delta from or to it. -/
structure DiffEngine.Coalesces {σ δ : Type} (E : DiffEngine σ δ) : Prop where
  diff_self : ∀ a, E.isEmpty (E.diff a a) = true
  merge_diff : ∀ a b c, E.merge (E.diff a b) (E.diff b c) = E.diff a c
  diff_right : ∀ a b c, E.isEmpty (E.diff b c) = true → E.diff a c = E.diff a b
  diff_left : ∀ a b c, E.isEmpty (E.diff a b) = true → E.diff a c = E.diff b c

/-- The decode error of `TestWatchConfigIllegalData`. -/
def yamlError : Err := Err.External "unmarshall error: YAML error: ..."

end State

/-! ## Theorems -/

namespace State

theorem Mapping.get_set (m : Mapping) (k v k' : String) :
    (m.set k v).get k' = if k = k' then some v else m.get k' := by
  simp [Mapping.set, Mapping.get]

theorem Mapping.get_delete (m : Mapping) (k k' : String) :
    (m.delete k).get k' = if k = k' then none else m.get k' := by
  induction m with
  | nil => simp [Mapping.delete, Mapping.get]
  | cons p rest ih =>
    obtain ⟨a, b⟩ := p
    simp only [Mapping.delete] at ih ⊢
    by_cases hak : a = k
    · subst hak
      simp only [List.filter, ne_eq, not_true_eq_false, decide_False]
      rw [ih]
      by_cases h : a = k' <;> simp [Mapping.get, h]
    · simp only [List.filter, ne_eq, hak, not_false_eq_true, decide_True, Mapping.get]
      rw [ih]
      by_cases h : k = k'
      · subst h; simp [hak]
      · simp [h]

theorem Mapping.mem_keys_of_get {m : Mapping} {k v : String} (h : m.get k = some v) :
    k ∈ m.keys := by
  induction m with
  | nil => simp [Mapping.get] at h
  | cons p rest ih =>
    obtain ⟨a, b⟩ := p
    by_cases hak : a = k
    · simp [Mapping.keys, hak]
    · simp only [Mapping.get, hak, if_false] at h
      have := ih h
      simp only [Mapping.keys, List.map_cons, List.mem_cons] at this ⊢
      exact Or.inr this

theorem itemChange_key {old new : Mapping} {k : String} {c : ItemChange}
    (h : itemChange old new k = some c) : c.Key = k := by
  unfold itemChange at h
  split at h
  · cases h; rfl
  · split at h
    · cases h
    · cases h; rfl
  · cases h; rfl
  · cases h

theorem sortedKeys_nodup (old new : Mapping) : (sortedKeys old new).Nodup :=
  (List.perm_insertionSort _ _).nodup_iff.mpr (List.nodup_dedup _)

theorem mem_sortedKeys {old new : Mapping} {k : String} :
    k ∈ sortedKeys old new ↔ k ∈ old.keys ∨ k ∈ new.keys := by
  unfold sortedKeys
  rw [(List.perm_insertionSort _ _).mem_iff, List.mem_dedup, List.mem_append]

theorem sortedKeys_sorted (old new : Mapping) :
    List.Sorted (· < ·) (sortedKeys old new) :=
  (List.sorted_insertionSort (· ≤ ·) _).lt_of_le (sortedKeys_nodup old new)

theorem filter_key_filterMap (old new : Mapping) (k : String) (L : List String)
    (hL : L.Nodup) :
    (L.filterMap (itemChange old new)).filter (fun c => decide (c.Key = k)) =
      if k ∈ L then (itemChange old new k).toList else [] := by
  induction L with
  | nil => simp
  | cons a rest ih =>
    have hnd := List.nodup_cons.mp hL
    have ih' := ih hnd.2
    cases hf : itemChange old new a with
    | none =>
      rw [List.filterMap_cons_none hf, ih']
      by_cases hka : k = a
      · subst hka
        simp [hf, hnd.1]
      · simp [hka]
    | some c =>
      rw [List.filterMap_cons_some hf]
      have hck : c.Key = a := itemChange_key hf
      by_cases hka : k = a
      · subst hka
        simp only [List.filter, hck, decide_True, ih', hnd.1, if_false, List.mem_cons,
          true_or, if_true, hf, Option.toList]
      · have hne : ¬ c.Key = k := by rw [hck]; exact fun h => hka h.symm
        simp only [List.filter, hne, decide_False, ih', List.mem_cons, hka, false_or]

theorem filter_key_MapDiff (old new : Mapping) (k : String) :
    (MapDiff old new).filter (fun c => decide (c.Key = k)) =
      (itemChange old new k).toList := by
  unfold MapDiff
  rw [filter_key_filterMap old new k _ (sortedKeys_nodup old new)]
  by_cases hk : k ∈ sortedKeys old new
  · simp [hk]
  · have hk' := mt mem_sortedKeys.mpr hk
    have ho : old.get k = none := by
      cases h : old.get k with
      | none => rfl
      | some v => exact absurd (Or.inl (Mapping.mem_keys_of_get h)) hk'
    have hn : new.get k = none := by
      cases h : new.get k with
      | none => rfl
      | some v => exact absurd (Or.inr (Mapping.mem_keys_of_get h)) hk'
    simp [hk, itemChange, ho, hn]

theorem get_applyChange (m : Mapping) (c : ItemChange) (k : String) :
    (applyChange m c).get k = if c.Key = k then applyAt c (m.get k) else m.get k := by
  unfold applyChange applyAt
  cases c.Kind <;> cases c.NewValue <;>
    simp only [Mapping.get_set, Mapping.get_delete] <;> split <;> simp_all

theorem get_applyChanges (cs : List ItemChange) (m : Mapping) (k : String) :
    (applyChanges cs m).get k =
      (cs.filter (fun c => decide (c.Key = k))).foldl (fun cur c => applyAt c cur) (m.get k) := by
  induction cs generalizing m with
  | nil => rfl
  | cons c rest ih =>
    simp only [applyChanges, List.foldl_cons] at ih ⊢
    rw [ih, get_applyChange]
    by_cases h : c.Key = k <;> simp [List.filter, h]

/-- C1. `MapDiff old new` holds, for every key, exactly the one change the key
calls for: `Added` (with the new value) for a key only in `new`, `Modified` (with
both values) for a key in both with different values, `Deleted` (with the old
value) for a key only in `old`, and nothing for an unchanged key. Applying the
emitted list to `old` gives a mapping with the value of `new` at every key. -/
theorem MapDiff_partition_roundtrip (old new : Mapping) :
    (∀ k : String,
      (MapDiff old new).filter (fun c => decide (c.Key = k)) =
        match old.get k, new.get k with
        | none, some v => [⟨k, ItemKind.Added, none, some v⟩]
        | some a, some b =>
          if a = b then [] else [⟨k, ItemKind.Modified, some a, some b⟩]
        | some a, none => [⟨k, ItemKind.Deleted, some a, none⟩]
        | none, none => []) ∧
    (∀ k : String, (applyChanges (MapDiff old new) old).get k = new.get k) := by
  refine ⟨fun k => ?_, fun k => ?_⟩
  · rw [filter_key_MapDiff]
    unfold itemChange
    cases old.get k with
    | none => cases new.get k <;> rfl
    | some a =>
      cases new.get k with
      | none => rfl
      | some b => by_cases h : a = b <;> simp [h]
  · rw [get_applyChanges, filter_key_MapDiff]
    unfold itemChange
    cases old.get k with
    | none => cases new.get k <;> rfl
    | some a =>
      cases new.get k with
      | none => rfl
      | some b => by_cases h : a = b <;> simp [h, applyAt]

theorem map_key_filterMap_sublist (old new : Mapping) (L : List String) :
    List.Sublist ((L.filterMap (itemChange old new)).map (fun c => c.Key)) L := by
  induction L with
  | nil => simp
  | cons a rest ih =>
    cases hf : itemChange old new a with
    | none =>
      rw [List.filterMap_cons_none hf]
      exact List.Sublist.cons a ih
    | some c =>
      rw [List.filterMap_cons_some hf, List.map_cons, itemChange_key hf]
      exact List.Sublist.cons₂ a ih

theorem foo_not_le_baz : ¬ ("foo" : String) ≤ "baz" := by
  rw [String.le_iff_toList_le]; decide

/-- C2. The keys of the changes `MapDiff` emits are strictly ascending; setting
`foo=bar` and `baz=yadda` on an empty configuration yields
`[baz Added yadda, foo Added bar]`, and deleting `foo` afterwards yields
`[foo Deleted bar]`, as in `TestWatchConfig`. -/
theorem MapDiff_sorted_by_key :
    (∀ old new : Mapping,
      List.Sorted (· < ·) ((MapDiff old new).map (fun c => c.Key))) ∧
    MapDiff [] [("foo", "bar"), ("baz", "yadda")] =
      [⟨"baz", ItemKind.Added, none, some "yadda"⟩,
       ⟨"foo", ItemKind.Added, none, some "bar"⟩] ∧
    MapDiff [("foo", "bar"), ("baz", "yadda")] [("baz", "yadda")] =
      [⟨"foo", ItemKind.Deleted, some "bar", none⟩] := by
  refine ⟨fun old new => ?_, ?_, ?_⟩
  · exact List.Pairwise.sublist (map_key_filterMap_sublist old new _)
      (sortedKeys_sorted old new)
  · have hk : sortedKeys [] [("foo", "bar"), ("baz", "yadda")] = ["baz", "foo"] := by
      have hd : List.dedup ["foo", "baz"] = ["foo", "baz"] := by decide
      simp only [sortedKeys, Mapping.keys, List.map, List.nil_append, hd,
        List.insertionSort, List.orderedInsert, foo_not_le_baz, if_false]
    unfold MapDiff
    rw [hk]
    decide
  · have hk : sortedKeys [("foo", "bar"), ("baz", "yadda")] [("baz", "yadda")] =
        ["baz", "foo"] := by
      have hd : List.dedup ["foo", "baz", "baz"] = ["foo", "baz"] := by decide
      simp only [sortedKeys, Mapping.keys, List.map, List.cons_append, List.nil_append, hd,
        List.insertionSort, List.orderedInsert, foo_not_le_baz, if_false]
    unfold MapDiff
    rw [hk]
    decide

/-- C3. For all string sets `A` and `B`, `SetDiff A B` has `Added = B − A` and
`Removed = A − B`; the two are disjoint, `(A − Removed) ∪ Added = B`, and the
delta is empty, hence gives no notification, exactly when `A = B`. -/
theorem SetDiff_laws (A B : Finset String) :
    (SetDiff A B).Added = B \ A ∧
    (SetDiff A B).Removed = A \ B ∧
    Disjoint (SetDiff A B).Added (SetDiff A B).Removed ∧
    (A \ (SetDiff A B).Removed) ∪ (SetDiff A B).Added = B ∧
    ((SetDiff A B).isEmpty = true ↔ A = B) ∧
    ((SetDiff A B).notifies = false ↔ A = B) := by
  have hempty : (SetDiff A B).isEmpty = true ↔ A = B := by
    simp only [SetDelta.isEmpty, SetDiff, Bool.and_eq_true, decide_eq_true_eq,
      Finset.sdiff_eq_empty_iff_subset]
    constructor
    · rintro ⟨h1, h2⟩
      exact Finset.Subset.antisymm h2 h1
    · rintro rfl
      exact ⟨Finset.Subset.refl _, Finset.Subset.refl _⟩
  refine ⟨rfl, rfl, ?_, ?_, hempty, ?_⟩
  · simp only [SetDiff]
    rw [Finset.disjoint_left]
    intro x hx hx'
    rw [Finset.mem_sdiff] at hx hx'
    exact hx.2 hx'.1
  · simp only [SetDiff]
    ext x
    simp only [Finset.mem_union, Finset.mem_sdiff]
    by_cases hA : x ∈ A <;> by_cases hB : x ∈ B <;> simp [hA, hB]
  · rw [← hempty]
    simp [SetDelta.notifies]

/-- C4. `ScalarDiff old new` gives a notification exactly when `old ≠ new`, the
value delivered is `new` itself, and storing the flag again with another content
(the node is present before and after) gives no notification. -/
theorem ScalarDiff_notifies_iff_changed :
    (∀ old new : Bool, (ScalarDiff old new).isSome = true ↔ old ≠ new) ∧
    (∀ old new v : Bool, ScalarDiff old new = some v → v = new) ∧
    (∀ content content' : String,
      ScalarDiff (IsExposed (some content)) (IsExposed (some content')) = none) := by
  refine ⟨?_, ?_, ?_⟩
  · intro old new
    cases old <;> cases new <;> simp [ScalarDiff]
  · intro old new v h
    cases old <;> cases new <;> simp [ScalarDiff] at h <;> exact h
  · intro content content'
    rfl

/-- Witness for C4: the flag going from cleared to set is delivered as the new
value `true`. -/
theorem ScalarDiff_notifies_iff_changed_witness :
    ScalarDiff false true = some true ∧ true = true :=
  ⟨rfl, ScalarDiff_notifies_iff_changed.2.1 false true true rfl⟩

end State

namespace Caas

open Errors

/-- C5. When the authenticated tag is the application tag of `A` and
`ApplicationExists A` succeeds, the call succeeds and the auth function it returns
accepts a tag exactly when the tag is of kind unit and `names.UnitApplication` of
its id succeeds with `A`. Every tag of another kind, the application tag of `A`
among them, and every unit of another application is rejected. -/
theorem CAASUnitAccessor_application_auth (UnitApplication : String → Option String)
    (authorizer : Authorizer) (st : ApplicationGetter) (A : String)
    (htag : authorizer.GetAuthTag = some (Tag.ApplicationTag A))
    (hexists : st.ApplicationExists A = none) :
    ∃ auth : AuthFunc,
      CAASUnitAccessor UnitApplication authorizer st = Except.ok auth ∧
      (∀ t : Tag, auth t = true ↔ t.Kind = UnitTagKind ∧ UnitApplication t.Id = some A) ∧
      (∀ t : Tag, t.Kind ≠ UnitTagKind → auth t = false) ∧
      auth (Tag.ApplicationTag A) = false ∧
      (∀ (t : Tag) (B : String), UnitApplication t.Id = some B → B ≠ A → auth t = false) := by
  refine ⟨fun tag =>
      if tag.Kind ≠ UnitTagKind then false
      else
        match UnitApplication tag.Id with
        | none => false
        | some unitApp => decide (unitApp = A),
    by simp only [CAASUnitAccessor, htag, hexists], ?_, ?_, ?_, ?_⟩
  · intro t
    by_cases hk : t.Kind = UnitTagKind
    · cases hu : UnitApplication t.Id <;> simp [hk, hu]
    · simp [hk]
  · intro t hk
    simp [hk]
  · simp [Tag.Kind, UnitTagKind, ApplicationTagKind]
  · intro t B hB hne
    by_cases hk : t.Kind = UnitTagKind <;> simp [hk, hB, hne]

/-- Witness for C5: the application agent of `wordpress` may access the unit
`wordpress/0`, and neither `mysql/0` nor its own application tag. -/
theorem CAASUnitAccessor_application_auth_witness :
    wordpressAuthorizer.GetAuthTag = some (Tag.ApplicationTag "wordpress") ∧
    everyApplication.ApplicationExists "wordpress" = none ∧
    unitApplication "wordpress/0" = some "wordpress" ∧
    unitApplication "mysql/0" = some "mysql" ∧
    ∃ auth : AuthFunc,
      CAASUnitAccessor unitApplication wordpressAuthorizer everyApplication = Except.ok auth ∧
      (∀ t : Tag, auth t = true ↔
        t.Kind = UnitTagKind ∧ unitApplication t.Id = some "wordpress") ∧
      (∀ t : Tag, t.Kind ≠ UnitTagKind → auth t = false) ∧
      auth (Tag.ApplicationTag "wordpress") = false ∧
      (∀ (t : Tag) (B : String),
        unitApplication t.Id = some B → B ≠ "wordpress" → auth t = false) :=
  ⟨rfl, rfl, by decide, by decide,
    CAASUnitAccessor_application_auth unitApplication wordpressAuthorizer everyApplication
      "wordpress" rfl rfl⟩

/-- C6. Calling the function `CAASUnitAccessor` returns gives an error exactly
when the authenticated tag is neither a unit tag nor an application tag, or is an
application tag for which `ApplicationExists` gives an error. For a unit tag the
call succeeds whatever the `ApplicationGetter` is, with the authorizer's
`AuthOwner` as auth function. -/
theorem CAASUnitAccessor_error_iff (UnitApplication : String → Option String)
    (authorizer : Authorizer) (st : ApplicationGetter) :
    ((∃ e : Err, CAASUnitAccessor UnitApplication authorizer st = Except.error e) ↔
      (((∀ n : String, authorizer.GetAuthTag ≠ some (Tag.UnitTag n)) ∧
          (∀ A : String, authorizer.GetAuthTag ≠ some (Tag.ApplicationTag A))) ∨
        (∃ (A : String) (e : Err),
          authorizer.GetAuthTag = some (Tag.ApplicationTag A) ∧
          st.ApplicationExists A = some e))) ∧
    (∀ n : String, authorizer.GetAuthTag = some (Tag.UnitTag n) →
      ∀ st' : ApplicationGetter,
        CAASUnitAccessor UnitApplication authorizer st' =
          Except.ok (fun tag => authorizer.AuthOwner tag)) := by
  constructor
  · cases htag : authorizer.GetAuthTag with
    | none => simp [CAASUnitAccessor, htag]
    | some tag =>
      cases tag with
      | ApplicationTag A =>
        cases hex : st.ApplicationExists A <;> simp [CAASUnitAccessor, htag, hex]
      | UnitTag n => simp [CAASUnitAccessor, htag]
      | Other goType kind id => simp [CAASUnitAccessor, htag]
  · intro n htag st'
    simp only [CAASUnitAccessor, htag]

/-- Witness for C6: a unit agent gets its auth function from a backend in which
no application exists, while an application agent gets that backend's error. -/
theorem CAASUnitAccessor_error_iff_witness :
    CAASUnitAccessor unitApplication unitAuthorizer noApplication =
      Except.ok (fun tag => unitAuthorizer.AuthOwner tag) ∧
    ∃ e : Err, CAASUnitAccessor unitApplication wordpressAuthorizer noApplication =
      Except.error e :=
  ⟨(CAASUnitAccessor_error_iff unitApplication unitAuthorizer noApplication).2
      "wordpress/0" rfl noApplication,
    ((CAASUnitAccessor_error_iff unitApplication wordpressAuthorizer noApplication).1).mpr
      (Or.inr ⟨"wordpress", Err.External "application not found", rfl, rfl⟩)⟩

end Caas

namespace Charm

open Errors

theorem userRequested_congr (d : Deps) (s s' : BaseSelector) (b : Base)
    (hforce : s'.force = s.force) (hlogger : s'.logger = s.logger)
    (hsupported : s'.supportedBases = s.supportedBases)
    (hjuju : s'.jujuSupportedBases = s.jujuSupportedBases) :
    userRequested d s' b = userRequested d s b := by
  simp only [userRequested, hforce, hlogger, hsupported, hjuju]

/-- C7. For a selector whose `requestedBase` is not empty, `CharmBase` returns
exactly what `userRequested(requestedBase)` returns, and the outcome (base and
error) is the same whatever `defaultBase` and `explicitDefaultBase` are and
whatever the LTS bases `series.LatestLTSBase()` and
`version.DefaultSupportedLTSBase()` are. -/
theorem CharmBase_requested_precedence (d : Deps) (s : BaseSelector)
    (hreq : d.Empty s.requestedBase = false) :
    CharmBase d s = userRequested d s s.requestedBase ∧
    (∀ (defaultBase : Base) (explicitDefaultBase : Bool),
      CharmBase d { s with defaultBase := defaultBase,
                           explicitDefaultBase := explicitDefaultBase } = CharmBase d s) ∧
    (∀ latest dflt : Base,
      CharmBase { d with LatestLTSBase := latest, DefaultSupportedLTSBase := dflt } s =
        CharmBase d s) := by
  refine ⟨?_, ?_, ?_⟩
  · simp [CharmBase, hreq]
  · intro defaultBase explicitDefaultBase
    simp only [CharmBase, hreq, Bool.not_false, if_true]
    exact userRequested_congr d _ s _ rfl rfl rfl rfl
  · intro latest dflt
    simp only [CharmBase, hreq, Bool.not_false, if_true]
    rfl

/-- Witness for C7: `--base debian@12` on the forced selector. -/
theorem CharmBase_requested_precedence_witness :
    sampleDeps.Empty forcedSelector.requestedBase = false ∧
    CharmBase sampleDeps forcedSelector =
      userRequested sampleDeps forcedSelector forcedSelector.requestedBase :=
  ⟨by decide, (CharmBase_requested_precedence sampleDeps forcedSelector (by decide)).1⟩

/-- C8. The model default base acts like `--base`: for a selector with an empty
`requestedBase` and `explicitDefaultBase` true, `CharmBase` has the same outcome
(base and error) as on the selector that differs only in having `requestedBase`
set to `defaultBase`. -/
theorem CharmBase_default_acts_like_requested (d : Deps) (s : BaseSelector)
    (hreq : d.Empty s.requestedBase = true) (hexplicit : s.explicitDefaultBase = true) :
    CharmBase d s = CharmBase d { s with requestedBase := s.defaultBase } ∧
    CharmBase d s = userRequested d s s.defaultBase := by
  have h1 : CharmBase d s = userRequested d s s.defaultBase := by
    simp [CharmBase, hreq, hexplicit]
  refine ⟨?_, h1⟩
  rw [h1]
  cases hd : d.Empty s.defaultBase <;> simp only [CharmBase, hd, hexplicit] <;>
    exact (userRequested_congr d _ s _ rfl rfl rfl rfl).symm

/-- Witness for C8: the model default `ubuntu@22.04` and no requested base. -/
theorem CharmBase_default_acts_like_requested_witness :
    sampleDeps.Empty defaultSelector.requestedBase = true ∧
    defaultSelector.explicitDefaultBase = true ∧
    CharmBase sampleDeps defaultSelector =
      CharmBase sampleDeps { defaultSelector with requestedBase := defaultSelector.defaultBase } :=
  ⟨by decide, rfl,
    (CharmBase_default_acts_like_requested sampleDeps defaultSelector (by decide) rfl).1⟩

/-- C9, the claim as stated fails. The selector `ConfigureBaseSelector` builds
for a deployment with `--force --base debian@12` of a charm for `ubuntu@22.04` has
`force` set, and `userRequested` on `debian@12`, a base juju does not support,
returns a NotSupported error and not the requested base. -/
theorem userRequested_force_counterexample :
    ConfigureBaseSelector sampleDeps forcedConfig = Except.ok forcedSelector ∧
    forcedSelector.force = true ∧
    userRequested sampleDeps forcedSelector bookworm =
      Outcome.returns Base.zero (some (Err.NewNotSupported "base: debian@12")) [] ∧
    (∀ log : List LogLine,
      userRequested sampleDeps forcedSelector bookworm ≠ Outcome.returns bookworm none log) := by
  have h : userRequested sampleDeps forcedSelector bookworm =
      Outcome.returns Base.zero (some (Err.NewNotSupported "base: debian@12")) [] := by
    decide
  refine ⟨by decide, rfl, h, fun log => ?_⟩
  rw [h]
  intro hc
  injection hc with hbase _ _
  exact absurd hbase (by decide)

/-- C9, amended. On a selector with a logger, `userRequested` returns with no
error the base `BaseForCharm` gives when `BaseForCharm` succeeds on the requested
base against `supportedBases`; with `force` it returns the requested base with no
error when `BaseForCharm` fails with an unsupported-base error and
`jujuSupportedBases` contains the requested base. For a base that `BaseForCharm`
rejects and that is not in `jujuSupportedBases`, force or not, it returns the
empty base and a NotSupported error. -/
theorem userRequested_supported_or_forced (d : Deps) (s : BaseSelector)
    (requestedBase : Base) (hlogger : s.logger ≠ none)
    (hnil : d.IsUnsupportedBaseError none = false) :
    (∀ base : Base, d.BaseForCharm requestedBase s.supportedBases = (base, none) →
      userRequested d s requestedBase =
        Outcome.returns base none [⟨msgUserRequestedBase, d.BaseString base⟩]) ∧
    (s.force = true →
      d.IsUnsupportedBaseError (d.BaseForCharm requestedBase s.supportedBases).2 = true →
      d.BaseString requestedBase ∈ s.jujuSupportedBases →
      userRequested d s requestedBase =
        Outcome.returns requestedBase none
          [⟨msgUserRequestedBase, d.BaseString requestedBase⟩]) ∧
    (∀ err : Err, (d.BaseForCharm requestedBase s.supportedBases).2 = some err →
      d.BaseString requestedBase ∉ s.jujuSupportedBases →
      userRequested d s requestedBase =
        Outcome.returns Base.zero
          (some (Err.NewNotSupported ("base: " ++ d.BaseString requestedBase))) []) := by
  obtain ⟨l, hl⟩ := Option.ne_none_iff_exists'.mp hlogger
  refine ⟨?_, ?_, ?_⟩
  · intro base hbase
    simp [userRequested, hbase, hnil, hl, Infof]
  · intro hforce hunsupported hjuju
    simp [userRequested, hforce, hunsupported, hjuju, hl, Infof]
  · intro err herr hjuju
    simp [userRequested, herr, hjuju]

/-- Witness for C9 amended: on the forced selector `ubuntu@22.04` is supported by
the charm, and `ubuntu@24.04` is not but juju supports it, so force applies. -/
theorem userRequested_supported_or_forced_witness :
    forcedSelector.logger ≠ none ∧
    sampleDeps.IsUnsupportedBaseError none = false ∧
    userRequested sampleDeps forcedSelector jammy =
      Outcome.returns jammy none [⟨msgUserRequestedBase, sampleDeps.BaseString jammy⟩] ∧
    userRequested sampleDeps forcedSelector noble =
      Outcome.returns noble none [⟨msgUserRequestedBase, sampleDeps.BaseString noble⟩] :=
  ⟨by decide, by decide,
    (userRequested_supported_or_forced sampleDeps forcedSelector jammy
      (by decide) (by decide)).1 jammy (by decide),
    (userRequested_supported_or_forced sampleDeps forcedSelector noble
      (by decide) (by decide)).2.1 rfl (by decide) (by decide)⟩

theorem validate_imageID_err (d : Deps) (s : BaseSelector)
    (supportedCharmBases supportedJujuBases : List Base)
    (himage : s.usingImageID = true) (hreq : d.Empty s.requestedBase = true)
    (hexplicit : s.explicitDefaultBase = false) :
    (validate d s supportedCharmBases supportedJujuBases).err =
      if s.logger = none then some (Err.NotValidf "empty Logger" [])
      else some (Err.Forbiddenf
        "base must be explicitly provided when image-id constraint is used" []) := by
  by_cases hl : s.logger = none <;> simp [validate, hl, himage, hreq, hexplicit]

/-- C10. When the image-id constraint is used, the requested base is empty and
the model default base is not explicitly configured, `validate` returns an error
and no bases; with a logger the error is the Forbidden error, whatever the
charm's and juju's supported bases are. `ConfigureBaseSelector` then fails too,
with that Forbidden error (traced) once `series.WorkloadBases` has succeeded. -/
theorem validate_imageID_without_base_fails (d : Deps) :
    (∀ (s : BaseSelector) (supportedCharmBases supportedJujuBases : List Base),
      s.usingImageID = true → d.Empty s.requestedBase = true →
      s.explicitDefaultBase = false →
      (validate d s supportedCharmBases supportedJujuBases).err ≠ none ∧
      (validate d s supportedCharmBases supportedJujuBases).supportedBases = [] ∧
      (s.logger ≠ none →
        (validate d s supportedCharmBases supportedJujuBases).err =
          some (Err.Forbiddenf
            "base must be explicitly provided when image-id constraint is used" []))) ∧
    (∀ cfg : SelectorConfig,
      cfg.UsingImageID = true → d.Empty cfg.RequestedBase = true →
      cfg.Config.DefaultBase.2 = false →
      (∃ e : Err, ConfigureBaseSelector d cfg = Except.error e) ∧
      (cfg.Logger ≠ none →
        ∀ workloadBases : List Base,
          d.WorkloadBases cfg.RequestedBase cfg.Config.ImageStream =
            Except.ok workloadBases →
          ConfigureBaseSelector d cfg =
            Except.error (Err.Trace (Err.Forbiddenf
              "base must be explicitly provided when image-id constraint is used" [])))) := by
  constructor
  · intro s supportedCharmBases supportedJujuBases himage hreq hexplicit
    have herr := validate_imageID_err d s supportedCharmBases supportedJujuBases
      himage hreq hexplicit
    refine ⟨?_, ?_, ?_⟩
    · rw [herr]; split <;> simp
    · by_cases hl : s.logger = none <;> simp [validate, hl, himage, hreq, hexplicit]
    · intro hl
      rw [herr, if_neg hl]
  · intro cfg himage hreq hexplicit
    constructor
    · unfold ConfigureBaseSelector
      cases hw : d.WorkloadBases cfg.RequestedBase cfg.Config.ImageStream with
      | error e => exact ⟨_, rfl⟩
      | ok workloadBases =>
        simp only [hexplicit, Bool.false_eq_true, if_false]
        rw [validate_imageID_err d _ cfg.SupportedCharmBases workloadBases himage hreq rfl]
        by_cases hl : cfg.Logger = none <;> simp [hl]
    · intro hl workloadBases hw
      unfold ConfigureBaseSelector
      simp only [hw, hexplicit, Bool.false_eq_true, if_false]
      rw [validate_imageID_err d _ cfg.SupportedCharmBases workloadBases himage hreq rfl]
      simp [hl]

/-- Witness for C10: the image-id constraint with no base and no explicit model
default, for a charm that supports `ubuntu@22.04`. -/
theorem validate_imageID_without_base_fails_witness :
    imageIDSelector.usingImageID = true ∧
    sampleDeps.Empty imageIDSelector.requestedBase = true ∧
    imageIDSelector.explicitDefaultBase = false ∧
    imageIDSelector.logger ≠ none ∧
    (validate sampleDeps imageIDSelector [jammy] [jammy, noble]).err =
      some (Err.Forbiddenf
        "base must be explicitly provided when image-id constraint is used" []) ∧
    ∃ e : Err, ConfigureBaseSelector sampleDeps imageIDConfig = Except.error e :=
  ⟨rfl, by decide, rfl, by decide,
    ((validate_imageID_without_base_fails sampleDeps).1 imageIDSelector [jammy]
      [jammy, noble] rfl (by decide) rfl).2.2 (by decide),
    ((validate_imageID_without_base_fails sampleDeps).2 imageIDConfig rfl
      (by decide) rfl).1⟩

end Charm

namespace State

open Errors

theorem Watcher.run_append {σ δ : Type} (E : DiffEngine σ δ) (w : Watcher σ δ)
    (l₁ l₂ : List (Event σ)) :
    Watcher.run E w (l₁ ++ l₂) =
      ((Watcher.run E (Watcher.run E w l₁).1 l₂).1,
        (Watcher.run E w l₁).2 ++ (Watcher.run E (Watcher.run E w l₁).1 l₂).2) := by
  induction l₁ generalizing w with
  | nil => simp [Watcher.run]
  | cons ev rest ih => simp [Watcher.run, ih, List.append_assoc]

theorem Watcher.running_step {σ δ : Type} (E : DiffEngine σ δ) (w : Watcher σ δ)
    (ev : Event σ) (hw : w.running) (hev : ev.ends = false) :
    (w.step E ev).1.running := by
  obtain ⟨h1, h2, h3⟩ := hw
  cases ev with
  | observe f =>
    cases f with
    | snapshot s => simp [Watcher.step, Watcher.observe, Watcher.running, h1, h2, h3]
    | transient => simp [Watcher.step, Watcher.observe, Watcher.running, h1, h2, h3]
    | undecodable e => simp [Event.ends] at hev
  | receive =>
    simp only [Watcher.step, Watcher.receive, h2, Bool.false_eq_true, if_false]
    cases w.slot <;> simp [Watcher.running, h1, h2, h3]
  | stop => simp [Event.ends] at hev

theorem Watcher.running_run {σ δ : Type} (E : DiffEngine σ δ) (w : Watcher σ δ)
    (evs : List (Event σ)) (hw : w.running) (hevs : ∀ ev ∈ evs, ev.ends = false) :
    (Watcher.run E w evs).1.running := by
  induction evs generalizing w with
  | nil => exact hw
  | cons ev rest ih =>
    simp only [Watcher.run]
    exact ih _ (Watcher.running_step E w ev hw (hevs ev (List.mem_cons_self _ _)))
      (fun ev' h' => hevs ev' (List.mem_cons_of_mem _ h'))

theorem Watcher.failedWith_step {σ δ : Type} (E : DiffEngine σ δ) (w : Watcher σ δ)
    (ev : Event σ) (e : Err) (hw : w.failedWith e) :
    (w.step E ev).1.failedWith e ∧
      ((w.step E ev).2 = none ∨
        (w.step E ev).2 = some (Output.received Received.closed) ∨
        (w.step E ev).2 = some (Output.stopped (some e))) := by
  obtain ⟨h1, h2, h3, h4⟩ := hw
  cases ev with
  | observe f => simp [Watcher.step, Watcher.observe, Watcher.failedWith, h1, h2, h3, h4]
  | receive => simp [Watcher.step, Watcher.receive, Watcher.failedWith, h1, h2, h3, h4]
  | stop => simp [Watcher.step, Watcher.Stop, Watcher.failedWith, h1, h2, h3, h4]

theorem Watcher.failedWith_run {σ δ : Type} (E : DiffEngine σ δ) (w : Watcher σ δ)
    (evs : List (Event σ)) (e : Err) (hw : w.failedWith e) :
    (Watcher.run E w evs).1.failedWith e ∧
      ∀ o ∈ (Watcher.run E w evs).2,
        o = Output.received Received.closed ∨ o = Output.stopped (some e) := by
  induction evs generalizing w with
  | nil => exact ⟨hw, fun o ho => by simp [Watcher.run] at ho⟩
  | cons ev rest ih =>
    obtain ⟨hstep, hout⟩ := Watcher.failedWith_step E w ev e hw
    obtain ⟨hrest, houts⟩ := ih _ hstep
    refine ⟨hrest, fun o ho => ?_⟩
    simp only [Watcher.run, List.mem_append] at ho
    rcases ho with ho | ho
    · rcases hout with h | h | h <;> rw [h] at ho <;> simp at ho
      · exact Or.inl ho
      · exact Or.inr ho
    · exact houts o ho

theorem Watcher.err_none_step {σ δ : Type} (E : DiffEngine σ δ) (w : Watcher σ δ)
    (ev : Event σ) (hw : w.err = none) (hev : ev.fails = false) :
    (w.step E ev).1.err = none ∧
      ∀ err : Option Err, (w.step E ev).2 = some (Output.stopped err) → err = none := by
  cases ev with
  | observe f =>
    cases f with
    | snapshot s =>
      by_cases hs : w.stopped = true <;> simp [Watcher.step, Watcher.observe, hs, hw]
    | transient =>
      by_cases hs : w.stopped = true <;> simp [Watcher.step, Watcher.observe, hs, hw]
    | undecodable e => simp [Event.fails] at hev
  | receive =>
    simp only [Watcher.step, Watcher.receive]
    by_cases hc : w.closed = true
    · simp [hc, hw]
    · cases hslot : w.slot <;> simp [hc, hw]
  | stop =>
    simp only [Watcher.step, Watcher.Stop, hw, Option.some.injEq, Output.stopped.injEq,
      true_and]
    intro err h
    exact h.symm

theorem Watcher.err_none_run {σ δ : Type} (E : DiffEngine σ δ) (w : Watcher σ δ)
    (evs : List (Event σ)) (hw : w.err = none) (hevs : ∀ ev ∈ evs, ev.fails = false) :
    (Watcher.run E w evs).1.err = none ∧
      ∀ err : Option Err, Output.stopped err ∈ (Watcher.run E w evs).2 → err = none := by
  induction evs generalizing w with
  | nil => exact ⟨hw, fun err h => by simp [Watcher.run] at h⟩
  | cons ev rest ih =>
    obtain ⟨hstep, hout⟩ :=
      Watcher.err_none_step E w ev hw (hevs ev (List.mem_cons_self _ _))
    obtain ⟨hrest, houts⟩ := ih _ hstep (fun ev' h' => hevs ev' (List.mem_cons_of_mem _ h'))
    refine ⟨hrest, fun err h => ?_⟩
    simp only [Watcher.run, List.mem_append] at h
    rcases h with h | h
    · cases hs : (w.step E ev).2 with
      | none => rw [hs] at h; simp at h
      | some o =>
        rw [hs] at h
        simp only [Option.toList, List.mem_singleton] at h
        exact hout err (by rw [hs, h])
    · exact houts err h

/-- C11. When the stored value becomes undecodable while the watcher runs (no
`Stop()` and no earlier decode error), whatever the watcher observed and delivered
before: nothing is pending, a receive yields a closed channel, every later receive
yields a closed channel too, so no delta is delivered for that observation, and
`Stop()`, then or after any later events, returns the decode error. A watcher that
never observes an undecodable value returns nil from every `Stop()`. -/
theorem decode_error_closes_watcher {σ δ : Type} (E : DiffEngine σ δ) (initial : σ)
    (seed : Option δ) :
    (∀ (pre post : List (Event σ)) (e : Err), (∀ ev ∈ pre, ev.ends = false) →
      (Watcher.run E (Watcher.start initial seed)
          (pre ++ [Event.observe (Fetched.undecodable e)])).1.slot = none ∧
      ((Watcher.run E (Watcher.start initial seed)
          (pre ++ [Event.observe (Fetched.undecodable e)])).1.receive).1 =
        Received.closed ∧
      (∀ r : Received δ,
        Output.received r ∈
          (Watcher.run E
            (Watcher.run E (Watcher.start initial seed)
              (pre ++ [Event.observe (Fetched.undecodable e)])).1 post).2 →
        r = Received.closed) ∧
      ((Watcher.run E (Watcher.start initial seed)
          (pre ++ [Event.observe (Fetched.undecodable e)])).1.Stop).1 = some e ∧
      ((Watcher.run E
          (Watcher.run E (Watcher.start initial seed)
            (pre ++ [Event.observe (Fetched.undecodable e)])).1 post).1.Stop).1 = some e) ∧
    (∀ evs : List (Event σ), (∀ ev ∈ evs, ev.fails = false) →
      ((Watcher.run E (Watcher.start initial seed) evs).1.Stop).1 = none ∧
      (∀ err : Option Err,
        Output.stopped err ∈ (Watcher.run E (Watcher.start initial seed) evs).2 →
        err = none)) := by
  constructor
  · intro pre post e hpre
    have hrun : (Watcher.run E (Watcher.start initial seed) pre).1.running :=
      Watcher.running_run E _ pre ⟨rfl, rfl, rfl⟩ hpre
    have hfail : (Watcher.run E (Watcher.start initial seed)
        (pre ++ [Event.observe (Fetched.undecodable e)])).1.failedWith e := by
      rw [Watcher.run_append]
      simp only [Watcher.run, Watcher.step, Watcher.observe, hrun.1, Bool.false_eq_true,
        if_false]
      exact ⟨rfl, rfl, rfl, rfl⟩
    obtain ⟨hpost, houts⟩ := Watcher.failedWith_run E _ post e hfail
    refine ⟨hfail.2.2.2, ?_, ?_, hfail.2.2.1, hpost.2.2.1⟩
    · simp [Watcher.receive, hfail.2.1]
    · intro r hr
      rcases houts _ hr with h | h
      · injection h
      · cases h
  · intro evs hevs
    obtain ⟨herr, houts⟩ := Watcher.err_none_run E (Watcher.start initial seed) evs rfl hevs
    exact ⟨herr, houts⟩

/-- Witness for C11: a map watcher delivers its first delta, then the stored
value turns into illegal data. -/
theorem decode_error_closes_watcher_witness :
    (∀ ev ∈ [Event.observe (Fetched.snapshot [("foo", "bar")]),
        (Event.receive : Event Mapping)], ev.ends = false) ∧
    ((Watcher.run mapEngine (Watcher.start [] none)
        ([Event.observe (Fetched.snapshot [("foo", "bar")]), Event.receive] ++
          [Event.observe (Fetched.undecodable yamlError)])).1.receive).1 =
      Received.closed ∧
    ((Watcher.run mapEngine (Watcher.start [] none)
        ([Event.observe (Fetched.snapshot [("foo", "bar")]), Event.receive] ++
          [Event.observe (Fetched.undecodable yamlError)])).1.Stop).1 = some yamlError ∧
    ((Watcher.run mapEngine (Watcher.start ([] : Mapping) none)
        [Event.observe (Fetched.snapshot [("foo", "bar")]), Event.receive]).1.Stop).1 =
      none :=
  have hpre : ∀ ev ∈ [Event.observe (Fetched.snapshot [("foo", "bar")]),
      (Event.receive : Event Mapping)], ev.ends = false := by
    intro ev hev
    simp only [List.mem_cons, List.mem_singleton, List.not_mem_nil, or_false] at hev
    rcases hev with h | h <;> rw [h] <;> rfl
  have hok : ∀ ev ∈ [Event.observe (Fetched.snapshot [("foo", "bar")]),
      (Event.receive : Event Mapping)], ev.fails = false := by
    intro ev hev
    simp only [List.mem_cons, List.mem_singleton, List.not_mem_nil, or_false] at hev
    rcases hev with h | h <;> rw [h] <;> rfl
  ⟨hpre,
    ((decode_error_closes_watcher mapEngine [] none).1 _ [] yamlError hpre).2.1,
    ((decode_error_closes_watcher mapEngine [] none).1 _ [] yamlError hpre).2.2.2.1,
    ((decode_error_closes_watcher mapEngine [] none).2 _ hok).1⟩

theorem filter_key_filterMap_of_key (f : String → Option ItemChange)
    (hkey : ∀ k c, f k = some c → c.Key = k) (k : String) (L : List String)
    (hL : L.Nodup) :
    (L.filterMap f).filter (fun c => decide (c.Key = k)) =
      if k ∈ L then (f k).toList else [] := by
  induction L with
  | nil => simp
  | cons a rest ih =>
    have hnd := List.nodup_cons.mp hL
    have ih' := ih hnd.2
    cases hf : f a with
    | none =>
      rw [List.filterMap_cons_none hf, ih']
      by_cases hka : k = a
      · subst hka
        simp [hf, hnd.1]
      · simp [hka]
    | some c =>
      rw [List.filterMap_cons_some hf]
      have hck : c.Key = a := hkey a c hf
      by_cases hka : k = a
      · subst hka
        simp only [List.filter, hck, decide_True, ih', hnd.1, if_false, List.mem_cons,
          true_or, if_true, hf, Option.toList]
      · have hne : ¬ c.Key = k := by rw [hck]; exact fun h => hka h.symm
        simp only [List.filter, hne, decide_False, ih', List.mem_cons, hka, false_or]

theorem map_key_filterMap_sublist_of_key (f : String → Option ItemChange)
    (hkey : ∀ k c, f k = some c → c.Key = k) (L : List String) :
    List.Sublist ((L.filterMap f).map (fun c => c.Key)) L := by
  induction L with
  | nil => simp
  | cons a rest ih =>
    cases hf : f a with
    | none =>
      rw [List.filterMap_cons_none hf]
      exact List.Sublist.cons a ih
    | some c =>
      rw [List.filterMap_cons_some hf, List.map_cons, hkey a c hf]
      exact List.Sublist.cons₂ a ih

theorem MapDiff_keys_sorted (old new : Mapping) :
    List.Sorted (· < ·) ((MapDiff old new).map (fun c => c.Key)) :=
  List.Pairwise.sublist (map_key_filterMap_sublist old new _) (sortedKeys_sorted old new)

theorem sortedChangeKeys_nodup (p n : List ItemChange) : (sortedChangeKeys p n).Nodup :=
  (List.perm_insertionSort _ _).nodup_iff.mpr (List.nodup_dedup _)

theorem sortedChangeKeys_sorted (p n : List ItemChange) :
    List.Sorted (· < ·) (sortedChangeKeys p n) :=
  (List.sorted_insertionSort (· ≤ ·) _).lt_of_le (sortedChangeKeys_nodup p n)

theorem mem_sortedChangeKeys {p n : List ItemChange} {k : String} :
    k ∈ sortedChangeKeys p n ↔ (∃ c ∈ p, c.Key = k) ∨ (∃ c ∈ n, c.Key = k) := by
  unfold sortedChangeKeys
  rw [(List.perm_insertionSort _ _).mem_iff, List.mem_dedup, List.mem_append]
  simp [List.mem_map]

theorem findChange_key {cs : List ItemChange} {k : String} {c : ItemChange}
    (h : findChange cs k = some c) : c.Key = k := by
  have := List.find?_some h
  simpa using this

theorem findChange_eq_none {cs : List ItemChange} {k : String}
    (h : ¬ ∃ c ∈ cs, c.Key = k) : findChange cs k = none := by
  unfold findChange
  rw [List.find?_eq_none]
  intro x hx hk
  exact h ⟨x, hx, by simpa using hk⟩

theorem findChange_eq_head_filter (cs : List ItemChange) (k : String) :
    findChange cs k = (cs.filter (fun c => decide (c.Key = k))).head? := by
  induction cs with
  | nil => rfl
  | cons c rest ih =>
    unfold findChange at ih ⊢
    by_cases h : c.Key = k
    · simp only [List.find?, List.filter, h, decide_True, List.head?_cons]
    · simp only [List.find?, List.filter, h, decide_False]
      exact ih

theorem mergeItem_key {k : String} {p n : Option ItemChange} {c : ItemChange}
    (hp : ∀ x, p = some x → x.Key = k) (hn : ∀ x, n = some x → x.Key = k)
    (h : mergeItem k p n = some c) : c.Key = k := by
  unfold mergeItem at h
  split at h
  · exact hn c h
  · exact hp c h
  · split at h
    · cases h
    · cases h; rfl
    · cases h; rfl
    · split at h
      · cases h
      · cases h; rfl

theorem mergeAt_key (p n : List ItemChange) (k : String) (c : ItemChange)
    (h : mergeItem k (findChange p k) (findChange n k) = some c) : c.Key = k :=
  mergeItem_key (fun _ hx => findChange_key hx) (fun _ hx => findChange_key hx) h

theorem filter_key_MergeChanges (p n : List ItemChange) (k : String) :
    (MergeChanges p n).filter (fun c => decide (c.Key = k)) =
      (mergeItem k (findChange p k) (findChange n k)).toList := by
  unfold MergeChanges
  rw [filter_key_filterMap_of_key _ (mergeAt_key p n) k _ (sortedChangeKeys_nodup p n)]
  by_cases hk : k ∈ sortedChangeKeys p n
  · simp [hk]
  · have hk' := mt mem_sortedChangeKeys.mpr hk
    have hp : findChange p k = none := findChange_eq_none (fun h => hk' (Or.inl h))
    have hn : findChange n k = none := findChange_eq_none (fun h => hk' (Or.inr h))
    simp [hk, hp, hn, mergeItem]

theorem MergeChanges_keys_sorted (p n : List ItemChange) :
    List.Sorted (· < ·) ((MergeChanges p n).map (fun c => c.Key)) :=
  List.Pairwise.sublist
    (map_key_filterMap_sublist_of_key _ (mergeAt_key p n) _) (sortedChangeKeys_sorted p n)

theorem mem_iff_of_filter_eq {l₁ l₂ : List ItemChange}
    (h : ∀ k : String, l₁.filter (fun c => decide (c.Key = k)) =
      l₂.filter (fun c => decide (c.Key = k))) (c : ItemChange) :
    c ∈ l₁ → c ∈ l₂ := by
  intro hc
  have h1 : c ∈ l₁.filter (fun x => decide (x.Key = c.Key)) :=
    List.mem_filter.mpr ⟨hc, by simp⟩
  rw [h c.Key] at h1
  exact (List.mem_filter.mp h1).1

theorem eq_of_sorted_of_filter_eq {l₁ l₂ : List ItemChange}
    (h₁ : List.Sorted (· < ·) (l₁.map (fun c => c.Key)))
    (h₂ : List.Sorted (· < ·) (l₂.map (fun c => c.Key)))
    (h : ∀ k : String, l₁.filter (fun c => decide (c.Key = k)) =
      l₂.filter (fun c => decide (c.Key = k))) :
    l₁ = l₂ := by
  have s₁ : List.Sorted (fun a b : ItemChange => a.Key < b.Key) l₁ := List.pairwise_map.mp h₁
  have s₂ : List.Sorted (fun a b : ItemChange => a.Key < b.Key) l₂ := List.pairwise_map.mp h₂
  have hne : ∀ {a b : ItemChange}, a.Key < b.Key → a ≠ b := by
    intro a b hab heq
    rw [heq] at hab
    exact lt_irrefl _ hab
  have n₁ : l₁.Nodup := by
    show List.Pairwise (· ≠ ·) l₁
    exact List.Pairwise.imp hne s₁
  have n₂ : l₂.Nodup := by
    show List.Pairwise (· ≠ ·) l₂
    exact List.Pairwise.imp hne s₂
  have hperm : l₁.Perm l₂ :=
    (List.perm_ext_iff_of_nodup n₁ n₂).mpr (fun c =>
      ⟨mem_iff_of_filter_eq h c, mem_iff_of_filter_eq (fun k => (h k).symm) c⟩)
  haveI : IsAntisymm ItemChange (fun a b => a.Key < b.Key) :=
    ⟨fun a b hab hba => absurd hab (lt_asymm hba)⟩
  exact List.eq_of_perm_of_sorted hperm s₁ s₂

theorem findChange_MapDiff (old new : Mapping) (k : String) :
    findChange (MapDiff old new) k = itemChange old new k := by
  rw [findChange_eq_head_filter, filter_key_MapDiff]
  cases itemChange old new k <;> rfl

theorem mergeItem_itemChange (a b c : Mapping) (k : String) :
    mergeItem k (itemChange a b k) (itemChange b c k) = itemChange a c k := by
  unfold itemChange
  cases a.get k with
  | none =>
    cases b.get k with
    | none => cases c.get k <;> rfl
    | some y =>
      cases c.get k with
      | none => rfl
      | some z => by_cases hyz : y = z <;> simp [mergeItem, hyz]
  | some x =>
    cases b.get k with
    | none =>
      cases c.get k with
      | none => rfl
      | some z => by_cases hxz : x = z <;> simp [mergeItem, hxz]
    | some y =>
      cases c.get k with
      | none => by_cases hxy : x = y <;> simp [mergeItem, hxy]
      | some z =>
        by_cases hxy : x = y
        · subst hxy
          by_cases hxz : x = z <;> simp [mergeItem, hxz]
        · by_cases hyz : y = z
          · subst hyz
            simp [mergeItem, hxy]
          · by_cases hxz : x = z
            · subst hxz
              simp [mergeItem, hxy, hyz]
            · simp [mergeItem, hxy, hyz, hxz]

theorem MergeChanges_MapDiff (a b c : Mapping) :
    MergeChanges (MapDiff a b) (MapDiff b c) = MapDiff a c := by
  apply eq_of_sorted_of_filter_eq (MergeChanges_keys_sorted _ _) (MapDiff_keys_sorted a c)
  intro k
  rw [filter_key_MergeChanges, filter_key_MapDiff, findChange_MapDiff, findChange_MapDiff,
    mergeItem_itemChange]

theorem itemChange_congr {a a' b b' : Mapping} (k : String)
    (ha : a.get k = a'.get k) (hb : b.get k = b'.get k) :
    itemChange a b k = itemChange a' b' k := by
  unfold itemChange
  rw [ha, hb]

theorem MapDiff_congr {a a' b b' : Mapping} (ha : ∀ k, a.get k = a'.get k)
    (hb : ∀ k, b.get k = b'.get k) : MapDiff a b = MapDiff a' b' := by
  apply eq_of_sorted_of_filter_eq (MapDiff_keys_sorted a b) (MapDiff_keys_sorted a' b')
  intro k
  rw [filter_key_MapDiff, filter_key_MapDiff, itemChange_congr k (ha k) (hb k)]

theorem itemChange_eq_none_iff (a b : Mapping) (k : String) :
    itemChange a b k = none ↔ a.get k = b.get k := by
  unfold itemChange
  cases a.get k with
  | none => cases b.get k <;> simp
  | some x =>
    cases b.get k with
    | none => simp
    | some y => by_cases h : x = y <;> simp [h]

theorem MapDiff_eq_nil_iff (a b : Mapping) :
    MapDiff a b = [] ↔ ∀ k, a.get k = b.get k := by
  constructor
  · intro h k
    have hf := filter_key_MapDiff a b k
    rw [h] at hf
    rw [← itemChange_eq_none_iff]
    cases hi : itemChange a b k with
    | none => rfl
    | some c => rw [hi] at hf; simp at hf
  · intro h
    apply eq_of_sorted_of_filter_eq (MapDiff_keys_sorted a b) (by simp)
    intro k
    rw [filter_key_MapDiff, (itemChange_eq_none_iff a b k).mpr (h k)]
    rfl

theorem get_applyChanges_MapDiff (old new : Mapping) (k : String) :
    (applyChanges (MapDiff old new) old).get k = new.get k := by
  rw [get_applyChanges, filter_key_MapDiff]
  unfold itemChange
  cases old.get k with
  | none => cases new.get k <;> rfl
  | some a =>
    cases new.get k with
    | none => rfl
    | some b => by_cases h : a = b <;> simp [h, applyAt]

theorem coalesce_pendingOf {σ δ : Type} (E : DiffEngine σ δ) (hE : E.Coalesces)
    (a b c : σ) :
    coalesce E (pendingOf E (E.diff a b)) (E.diff b c) = pendingOf E (E.diff a c) := by
  unfold coalesce
  by_cases hbc : E.isEmpty (E.diff b c) = true
  · rw [if_pos hbc, hE.diff_right a b c hbc]
  · rw [if_neg hbc]
    by_cases hab : E.isEmpty (E.diff a b) = true
    · have h : pendingOf E (E.diff a b) = none := by simp [pendingOf, hab]
      rw [h, hE.diff_left a b c hab]
      simp [pendingOf, hbc]
    · have h : pendingOf E (E.diff a b) = some (E.diff a b) := by simp [pendingOf, hab]
      rw [h]
      simp only [hE.merge_diff]

theorem Watcher.observeAll_slot {σ δ : Type} (E : DiffEngine σ δ) (hE : E.Coalesces)
    (baseline : σ) (ss : List σ) (w : Watcher σ δ) (hrun : w.stopped = false)
    (hslot : w.slot = pendingOf E (E.diff baseline w.last)) :
    (Watcher.observeAll E w ss).slot =
      pendingOf E (E.diff baseline (lastSnapshot w.last ss)) := by
  induction ss generalizing w with
  | nil => exact hslot
  | cons s rest ih =>
    have hstep : w.observe E (Fetched.snapshot s) =
        { w with last := s, slot := coalesce E w.slot (E.diff w.last s) } := by
      simp [Watcher.observe, hrun]
    simp only [Watcher.observeAll, List.foldl_cons, lastSnapshot] at ih ⊢
    rw [hstep]
    exact ih _ hrun (by simp only [hslot]; exact coalesce_pendingOf E hE baseline w.last s)

theorem foldl_merge_successiveDeltas {σ δ : Type} (E : DiffEngine σ δ) (hE : E.Coalesces)
    (baseline prev : σ) (ss : List σ) :
    (successiveDeltas E prev ss).foldl E.merge (E.diff baseline prev) =
      E.diff baseline (lastSnapshot prev ss) := by
  induction ss generalizing prev with
  | nil => rfl
  | cons s rest ih =>
    simp only [successiveDeltas, List.foldl_cons, lastSnapshot, hE.merge_diff]
    exact ih s

theorem mapEngine_coalesces : mapEngine.Coalesces where
  diff_self := fun a => by
    show (MapDiff a a).isEmpty = true
    rw [(MapDiff_eq_nil_iff a a).mpr (fun _ => rfl)]
    rfl
  merge_diff := MergeChanges_MapDiff
  diff_right := fun a b c h => by
    have hnil : MapDiff b c = [] := List.isEmpty_iff.mp h
    exact MapDiff_congr (fun _ => rfl) (fun k => ((MapDiff_eq_nil_iff b c).mp hnil k).symm)
  diff_left := fun a b c h => by
    have hnil : MapDiff a b = [] := List.isEmpty_iff.mp h
    exact MapDiff_congr (fun k => (MapDiff_eq_nil_iff a b).mp hnil k) (fun _ => rfl)

theorem SetDiff_isEmpty_iff (A B : Finset String) : (SetDiff A B).isEmpty = true ↔ A = B := by
  simp only [SetDelta.isEmpty, SetDiff, Bool.and_eq_true, decide_eq_true_eq,
    Finset.sdiff_eq_empty_iff_subset]
  constructor
  · rintro ⟨h1, h2⟩
    exact Finset.Subset.antisymm h2 h1
  · rintro rfl
    exact ⟨Finset.Subset.refl _, Finset.Subset.refl _⟩

theorem SetDelta.merge_SetDiff (A B C : Finset String) :
    (SetDiff A B).merge (SetDiff B C) = SetDiff A C := by
  simp only [SetDelta.merge, SetDiff, SetDelta.mk.injEq]
  constructor
  · ext x
    simp only [Finset.mem_union, Finset.mem_sdiff]
    by_cases hA : x ∈ A <;> by_cases hB : x ∈ B <;> by_cases hC : x ∈ C <;> simp [hA, hB, hC]
  · ext x
    simp only [Finset.mem_union, Finset.mem_sdiff]
    by_cases hA : x ∈ A <;> by_cases hB : x ∈ B <;> by_cases hC : x ∈ C <;> simp [hA, hB, hC]

theorem setEngine_coalesces : setEngine.Coalesces where
  diff_self := fun a => (SetDiff_isEmpty_iff a a).mpr rfl
  merge_diff := SetDelta.merge_SetDiff
  diff_right := fun a b c h => by
    have hbc : b = c := (SetDiff_isEmpty_iff b c).mp h
    show SetDiff a c = SetDiff a b
    rw [hbc]
  diff_left := fun a b c h => by
    have hab : a = b := (SetDiff_isEmpty_iff a b).mp h
    show SetDiff a c = SetDiff b c
    rw [hab]

theorem get_applyChanges_congr (cs : List ItemChange) {m m' : Mapping} (k : String)
    (h : m.get k = m'.get k) : (applyChanges cs m).get k = (applyChanges cs m').get k := by
  rw [get_applyChanges, get_applyChanges, h]

theorem get_replayChanges (m prev : Mapping) (ss : List Mapping)
    (h : ∀ k, m.get k = prev.get k) (k : String) :
    (replayChanges m (successiveDeltas mapEngine prev ss)).get k =
      (lastSnapshot prev ss).get k := by
  induction ss generalizing m prev with
  | nil => exact h k
  | cons s rest ih =>
    simp only [successiveDeltas, replayChanges, List.foldl_cons, lastSnapshot] at ih ⊢
    apply ih
    intro k'
    show (applyChanges (MapDiff prev s) m).get k' = s.get k'
    rw [get_applyChanges_congr _ k' (h k'), get_applyChanges_MapDiff]

theorem applySetDelta_SetDiff (A B : Finset String) : applySetDelta A (SetDiff A B) = B := by
  simp only [applySetDelta, SetDiff]
  ext x
  simp only [Finset.mem_union, Finset.mem_sdiff]
  by_cases hA : x ∈ A <;> by_cases hB : x ∈ B <;> simp [hA, hB]

theorem replaySetDeltas_successive (prev : Finset String) (ss : List (Finset String)) :
    replaySetDeltas prev (successiveDeltas setEngine prev ss) = lastSnapshot prev ss := by
  induction ss generalizing prev with
  | nil => rfl
  | cons s rest ih =>
    simp only [successiveDeltas, replaySetDeltas, List.foldl_cons, lastSnapshot] at ih ⊢
    show List.foldl applySetDelta (applySetDelta prev (SetDiff prev s)) _ = _
    rw [applySetDelta_SetDiff]
    exact ih s

/-- C12. Coalescing. For every baseline and every sequence of snapshots observed
with no read in between, for map and for set watchers: merging the successive
deltas `Diff(s(i-1), s(i))` one after the other yields exactly
`Diff(baseline, sn)`; the single pending slot of the watcher holds exactly that
delta (nothing when it is empty); and it is the delta between the baseline and
the result of replaying the deltas one by one onto the baseline. A key added then
deleted cancels, a key modified twice keeps only the latest value, a member added
then removed cancels (Scenario B of section 8 leaves `wordpress/1` added). The
slot of a watcher never holds more than one notification. -/
theorem coalescing_yields_net_delta :
    (∀ (baseline : Mapping) (ss : List Mapping),
      (successiveDeltas mapEngine baseline ss).foldl MergeChanges [] =
        MapDiff baseline (lastSnapshot baseline ss) ∧
      (Watcher.observeAll mapEngine (Watcher.start baseline none) ss).slot =
        pendingOf mapEngine (MapDiff baseline (lastSnapshot baseline ss)) ∧
      MapDiff baseline (replayChanges baseline (successiveDeltas mapEngine baseline ss)) =
        MapDiff baseline (lastSnapshot baseline ss)) ∧
    (∀ (baseline : Finset String) (ss : List (Finset String)),
      (successiveDeltas setEngine baseline ss).foldl SetDelta.merge ⟨∅, ∅⟩ =
        SetDiff baseline (lastSnapshot baseline ss) ∧
      (Watcher.observeAll setEngine (Watcher.start baseline none) ss).slot =
        pendingOf setEngine (SetDiff baseline (lastSnapshot baseline ss)) ∧
      SetDiff baseline (replaySetDeltas baseline (successiveDeltas setEngine baseline ss)) =
        SetDiff baseline (lastSnapshot baseline ss)) ∧
    (∀ k v : String,
      mergeItem k (some ⟨k, ItemKind.Added, none, some v⟩)
        (some ⟨k, ItemKind.Deleted, some v, none⟩) = none) ∧
    (∀ k a b c : String, a ≠ c →
      mergeItem k (some ⟨k, ItemKind.Modified, some a, some b⟩)
        (some ⟨k, ItemKind.Modified, some b, some c⟩) =
        some ⟨k, ItemKind.Modified, some a, some c⟩) ∧
    (∀ (S : Finset String) (x : String),
      ((SetDiff S (insert x S)).merge (SetDiff (insert x S) S)).isEmpty = true) ∧
    (Watcher.observeAll setEngine (Watcher.start ∅ none)
        [{"wordpress/0"}, {"wordpress/1", "wordpress/0"}, {"wordpress/1"}]).slot =
      some ⟨{"wordpress/1"}, ∅⟩ ∧
    (∀ (σ δ : Type) (E : DiffEngine σ δ) (w : Watcher σ δ) (evs : List (Event σ)),
      (Watcher.run E w evs).1.slot.toList.length ≤ 1) := by
  have hset : ∀ (baseline : Finset String) (ss : List (Finset String)),
      (Watcher.observeAll setEngine (Watcher.start baseline none) ss).slot =
        pendingOf setEngine (SetDiff baseline (lastSnapshot baseline ss)) := by
    intro baseline ss
    refine Watcher.observeAll_slot setEngine setEngine_coalesces baseline ss
      (Watcher.start baseline none) rfl ?_
    have h := setEngine_coalesces.diff_self baseline
    simp [Watcher.start, pendingOf, h]
  refine ⟨fun baseline ss => ⟨?_, ?_, ?_⟩, fun baseline ss => ⟨?_, hset baseline ss, ?_⟩,
    fun k v => rfl, ?_, ?_, ?_, ?_⟩
  · have h := foldl_merge_successiveDeltas mapEngine mapEngine_coalesces baseline baseline ss
    have hnil : mapEngine.diff baseline baseline = [] :=
      (MapDiff_eq_nil_iff baseline baseline).mpr (fun _ => rfl)
    rw [hnil] at h
    exact h
  · refine Watcher.observeAll_slot mapEngine mapEngine_coalesces baseline ss
      (Watcher.start baseline none) rfl ?_
    have h := mapEngine_coalesces.diff_self baseline
    simp [Watcher.start, pendingOf, h]
  · exact MapDiff_congr (fun _ => rfl)
      (fun k => get_replayChanges baseline baseline ss (fun _ => rfl) k)
  · have h := foldl_merge_successiveDeltas setEngine setEngine_coalesces baseline baseline ss
    have hnil : setEngine.diff baseline baseline = ⟨∅, ∅⟩ := by
      simp [setEngine, SetDiff]
    rw [hnil] at h
    exact h
  · rw [replaySetDeltas_successive]
  · intro k a b c hac
    simp [mergeItem, hac]
  · intro S x
    rw [SetDelta.merge_SetDiff]
    exact (SetDiff_isEmpty_iff S S).mpr rfl
  · rw [hset]
    simp [lastSnapshot, pendingOf, setEngine, SetDiff, SetDelta.isEmpty]
  · intro σ δ E w evs
    cases (Watcher.run E w evs).1.slot <;> simp

/-- Witness for C12: the value of `k` goes from `a` to `b` to `c` before the
consumer reads, and the pending change is the single change from `a` to `c`. -/
theorem coalescing_yields_net_delta_witness :
    ("a" : String) ≠ "c" ∧
    mergeItem "k" (some ⟨"k", ItemKind.Modified, some "a", some "b"⟩)
        (some ⟨"k", ItemKind.Modified, some "b", some "c"⟩) =
      some ⟨"k", ItemKind.Modified, some "a", some "c"⟩ ∧
    (Watcher.observeAll mapEngine (Watcher.start [("k", "a")] none)
        [[("k", "b")], [("k", "c")]]).slot =
      pendingOf mapEngine (MapDiff [("k", "a")] (lastSnapshot [("k", "a")]
        [[("k", "b")], [("k", "c")]])) :=
  ⟨by decide, coalescing_yields_net_delta.2.2.2.1 "k" "a" "b" "c" (by decide),
    (coalescing_yields_net_delta.1 [("k", "a")] [[("k", "b")], [("k", "c")]]).2.1⟩

end State
